import Mathlib

/-!
# A verification development for the `myapp` web server

The server is thin glue over the Go standard library: `server/config` reads two
environment variables, `server/api` holds three handlers, and `server/main.go`
wires them to a `http.ServeMux` together with a static file server.

The embedding is shallow.  Go strings are byte lists, the process environment is
a lookup function, Go's multiple return values are pairs, and the parts of the
standard library the program calls (`strconv.Atoi`, `fmt`'s `%d`,
`encoding/json`, `net/url`, `net/http`) are transcribed as Lean functions next
to the functions of the repository that use them.
-/

set_option maxRecDepth 8000

namespace MyApp

/-! ## Strings -/

/-- A Go `byte`; arithmetic on it wraps modulo 256. -/
abbrev Byte := Fin 256

/-- A Go `string`: an immutable sequence of bytes. -/
abbrev GoString := List Byte

/-- The bytes of an ASCII string literal of the source. -/
def bytes (s : String) : GoString := s.toList.map (fun c => Fin.ofNat c.toNat)

/-! ## `strconv` -/

/-- The two error values `strconv` reports: `ErrSyntax` and `ErrRange`. -/
inductive NumError where
  | ErrSyntax
  | ErrRange
  deriving DecidableEq, Repr

/-- Go's `int` on a 64-bit platform: conversion of a mathematical integer to the
two's-complement value it wraps to. -/
def wrapInt64 (z : Int) : Int := (z + 9223372036854775808) % 18446744073709551616 - 9223372036854775808

/-- Go's `uint64`: wrap-around modulo `2^64`. -/
def wrapUint64 (n : Nat) : Nat := n % 18446744073709551616

/-- The digit loop of the fast path of `strconv.Atoi`:
`for _, ch := range []byte(s) { ch -= '0'; if ch > 9 { return 0, syntaxError }; n = n*10 + int(ch) }`. -/
def atoiFastLoop : GoString → Int → Int × Option NumError
  | [], n => (n, none)
  | ch :: rest, n =>
    let ch : Byte := ch - 48
    if ch > 9 then (0, some NumError.ErrSyntax)
    else atoiFastLoop rest (wrapInt64 (n * 10 + (ch.val : Int)))

/-- The function `lower` of `strconv`: `c | ('x' - 'X')`. -/
def lower (c : Byte) : Nat := c.val ||| 32

/-- The loop of `strconv.ParseUint(s, 10, 64)` over the bytes of `s`, with
`cutoff = maxUint64/10 + 1` and `maxVal = 1<<64 - 1`.  A range error carries
`maxVal` as its value. -/
def parseUintLoop : GoString → Nat → Nat × Option NumError
  | [], n => (n, none)
  | c :: rest, n =>
    if (48 ≤ c.val ∧ c.val ≤ 57) ∨ (97 ≤ lower c ∧ lower c ≤ 122) then
      let d : Nat := if 48 ≤ c.val ∧ c.val ≤ 57 then c.val - 48 else lower c - 97 + 10
      if d ≥ 10 then (0, some NumError.ErrSyntax)
      else if n ≥ 18446744073709551615 / 10 + 1 then (18446744073709551615, some NumError.ErrRange)
      else
        let n := wrapUint64 (n * 10)
        let n1 := wrapUint64 (n + d)
        if n1 < n ∨ n1 > 18446744073709551615 then (18446744073709551615, some NumError.ErrRange)
        else parseUintLoop rest n1
    else (0, some NumError.ErrSyntax)

/-- Go's `strconv.ParseUint(s, 10, 64)`. -/
def ParseUint (s : GoString) : Nat × Option NumError :=
  if s = [] then (0, some NumError.ErrSyntax) else parseUintLoop s 0

/-- Go's `strconv.ParseInt(s, 10, 0)` with `IntSize = 64`: picks off the sign,
parses the magnitude with `ParseUint`, then checks it against
`cutoff = 1 << 63`. -/
def ParseInt (s : GoString) : Int × Option NumError :=
  match s with
  | [] => (0, some NumError.ErrSyntax)
  | c :: t =>
    let neg : Bool := c = 45
    let s1 : GoString := if c = 43 ∨ c = 45 then t else s
    let r := ParseUint s1
    if r.2 = some NumError.ErrSyntax then (0, some NumError.ErrSyntax)
    else
      let un := r.1
      if neg = false ∧ un ≥ 9223372036854775808 then (9223372036854775807, some NumError.ErrRange)
      else if neg = true ∧ un > 9223372036854775808 then (-9223372036854775808, some NumError.ErrRange)
      else
        let n := wrapInt64 (un : Int)
        (if neg = true then wrapInt64 (-n) else n, none)

/-- Go's `strconv.Atoi` with `intSize = 64`: strings of 1 to 18 bytes take the
fast path, every other string goes through `ParseInt(s, 10, 0)`. -/
def Atoi (s : GoString) : Int × Option NumError :=
  if 0 < s.length ∧ s.length < 19 then
    match s with
    | [] => (0, some NumError.ErrSyntax)
    | c :: t =>
      if (c = 45 ∨ c = 43) ∧ t.length < 1 then (0, some NumError.ErrSyntax)
      else
        let s1 : GoString := if c = 45 ∨ c = 43 then t else s
        let r := atoiFastLoop s1 0
        if r.2 ≠ none then (0, r.2)
        else (if c = 45 then wrapInt64 (-r.1) else r.1, none)
  else
    let r := ParseInt s
    (wrapInt64 r.1, r.2)

/-! ## `server/config/config.go` -/

/-- The process environment as `os.LookupEnv` sees it: `none` when the variable
is not set, `some v` (possibly empty) when it is. -/
abbrev Env := GoString → Option GoString

/-- ServerConfig holds server-related configuration. -/
structure ServerConfig where
  Port : Int
  Host : GoString
  deriving DecidableEq

/-- Config holds all application configuration. -/
structure Config where
  Server : ServerConfig
  deriving DecidableEq

/-- Helper function to get an environment variable as a string with a default value. -/
def getEnvAsString (env : Env) (key defaultValue : GoString) : GoString :=
  match env key with
  | some value => value
  | none => defaultValue

/-- Helper function to get an environment variable as an integer with a default value. -/
def getEnvAsInt (env : Env) (key : GoString) (defaultValue : Int) : Int :=
  match env key with
  | some value =>
    match Atoi value with
    | (intValue, none) => intValue
    | (_, some _) => defaultValue
  | none => defaultValue

/-- LoadConfig loads configuration from environment variables or defaults. -/
def LoadConfig (env : Env) : Config :=
  { Server :=
      { Port := getEnvAsInt env (bytes "APP_PORT") 8080
        Host := getEnvAsString env (bytes "APP_HOST") (bytes "0.0.0.0") } }

/-- An environment in which exactly the listed variables are set. -/
def envOf (vars : List (GoString × GoString)) : Env :=
  fun key => (vars.find? (fun kv => kv.1 = key)).map (fun kv => kv.2)

/-! ## What the specification calls an integer string -/

/-- The byte is one of the ASCII digits `0`..`9`. -/
def isDigit (b : Byte) : Prop := 48 ≤ b.val ∧ b.val ≤ 57

/-- The number a string of decimal digits denotes, most significant digit first. -/
def digitsValue (ds : GoString) : Nat := ds.foldl (fun acc d => 10 * acc + (d.val - 48)) 0

/-- The string `v` is an integer string denoting `n`: an optional sign `+` or `-`
followed by one or more decimal digits. -/
def IsIntegerString (v : GoString) (n : Int) : Prop :=
  ∃ ds : GoString, ds ≠ [] ∧ (∀ d ∈ ds, isDigit d) ∧
    ((v = ds ∧ n = (digitsValue ds : Int)) ∨
     (v = 43 :: ds ∧ n = (digitsValue ds : Int)) ∨
     (v = 45 :: ds ∧ n = -(digitsValue ds : Int)))

/-- The integer fits Go's 64-bit `int`. -/
def InIntRange (n : Int) : Prop := -9223372036854775808 ≤ n ∧ n ≤ 9223372036854775807

instance : DecidablePred isDigit := fun b => by unfold isDigit; infer_instance

instance : DecidablePred InIntRange := fun n => by unfold InIntRange; infer_instance

/-! ## `fmt` and the listen address of `server/main.go` -/

/-- The digit table `ldigits = "0123456789abcdefx"` of package `fmt`, indexed. -/
def ldigits (u : Nat) : Byte := (bytes "0123456789abcdefx").getD u 0

/-- The base-10 loop of `fmt.(*fmt).fmtInteger`, which fills the buffer from the
right: `for u >= 10 { i--; next := u / 10; buf[i] = byte('0' + u - next*10); u = next }`.
The first argument is the room left in the buffer; the result is the remaining
`u` and the bytes written so far. -/
def fmtIntegerLoop : Nat → Nat → GoString → Nat × GoString
  | 0, u, buf => (u, buf)
  | room + 1, u, buf =>
    if u ≥ 10 then
      let next := u / 10
      fmtIntegerLoop room next (Fin.ofNat (48 + u - next * 10) :: buf)
    else (u, buf)

/-- The verb `%d` applied to an `int`: `fmtInteger(uint64(v), 10, signed, ...)`
without flags, width or precision, on the 68-byte buffer `intbuf`. -/
def fmtInteger (v : Int) : GoString :=
  let u : Nat := (v % 18446744073709551616).toNat
  let negative : Bool := wrapInt64 (u : Int) < 0
  let u : Nat := if negative = true then wrapUint64 (18446744073709551616 - u) else u
  let r := fmtIntegerLoop 67 u []
  let buf := ldigits r.1 :: r.2
  if negative = true then 45 :: buf else buf

/-- The listen address computed in `main`:
`serverAddr := fmt.Sprintf("%s:%d", appConfig.Server.Host, appConfig.Server.Port)`. -/
def serverAddr (appConfig : Config) : GoString :=
  appConfig.Server.Host ++ bytes ":" ++ fmtInteger appConfig.Server.Port

/-- The decimal digits of a natural number, most significant first. -/
def decimalDigits (m : Nat) : GoString :=
  if m = 0 then [48] else (Nat.digits 10 m).reverse.map (fun d => Fin.ofNat (48 + d))

/-- The decimal rendering of an integer: a minus sign for a negative number,
then the digits of its absolute value. -/
def decimal (z : Int) : GoString :=
  if z < 0 then 45 :: decimalDigits z.natAbs else decimalDigits z.natAbs

/-! ## `net/http`: headers, requests and the response writer -/

/-- A `http.Header` whose keys are in canonical form (as all keys the program uses
are) and carry one value each. -/
abbrev Header := List (GoString × GoString)

/-- Go's `Header.Del`. -/
def Header.Del (h : Header) (key : GoString) : Header :=
  h.filter (fun kv => kv.1 ≠ key)

/-- Go's `Header.Set`: replaces any value of `key`. -/
def Header.Set (h : Header) (key value : GoString) : Header :=
  (key, value) :: Header.Del h key

/-- Go's `Header.Get`: the value of `key`, or the empty string. -/
def Header.Get (h : Header) (key : GoString) : GoString :=
  match h.find? (fun kv => kv.1 = key) with
  | some kv => kv.2
  | none => []

/-- The fields of a `*http.Request` the program and its library calls look at:
the method, `URL.Path`, `URL.RawPath`, the header and the body. -/
structure Request where
  Method : GoString
  Path : GoString
  RawPath : GoString
  Header : Header
  Body : GoString

/-- The state behind a `http.ResponseWriter`: the live header map, whether the
status line has been written, and what was written.  `sent` is the copy of the
header map taken when the status line is written; later changes of `header` do
not reach the client. -/
structure ResponseWriter where
  header : Header
  wroteHeader : Bool
  status : Nat
  sent : Header
  body : GoString

/-- The writer a handler is called with. -/
def ResponseWriter.new : ResponseWriter :=
  { header := [], wroteHeader := false, status := 0, sent := [], body := [] }

/-- `w.Header().Set(key, value)`. -/
def ResponseWriter.SetHeader (w : ResponseWriter) (key value : GoString) : ResponseWriter :=
  { w with header := Header.Set w.header key value }

/-- `w.Header().Del(key)`. -/
def ResponseWriter.DelHeader (w : ResponseWriter) (key : GoString) : ResponseWriter :=
  { w with header := Header.Del w.header key }

/-- `w.WriteHeader(code)`: the first call fixes the status and the headers, a
later call is superfluous and ignored. -/
def ResponseWriter.WriteHeader (w : ResponseWriter) (code : Nat) : ResponseWriter :=
  if w.wroteHeader = true then w
  else { w with wroteHeader := true, status := code, sent := w.header }

/-- `w.Write(data)`: writes the status line with `http.StatusOK` first when no
status has been written yet. -/
def ResponseWriter.Write (w : ResponseWriter) (data : GoString) : ResponseWriter :=
  let w := if w.wroteHeader = true then w else ResponseWriter.WriteHeader w 200
  { w with body := w.body ++ data }

/-- What the handler has produced once it returns. -/
structure Response where
  status : Nat
  header : Header
  body : GoString

/-- The response of a handler that has returned: when it never wrote, the
server sends status 200 with the headers set so far and an empty body. -/
def ResponseWriter.finish (w : ResponseWriter) : Response :=
  let w := if w.wroteHeader = true then w else ResponseWriter.WriteHeader w 200
  { status := w.status, header := w.sent, body := w.body }

/-- Go's `http.Error`: drops `Content-Length`, sets the two headers, writes the
status, then prints the message with `fmt.Fprintln`, that is followed by a
newline. -/
def Error (w : ResponseWriter) (error : GoString) (code : Nat) : ResponseWriter :=
  let w := ResponseWriter.DelHeader w (bytes "Content-Length")
  let w := ResponseWriter.SetHeader w (bytes "Content-Type") (bytes "text/plain; charset=utf-8")
  let w := ResponseWriter.SetHeader w (bytes "X-Content-Type-Options") (bytes "nosniff")
  let w := ResponseWriter.WriteHeader w code
  ResponseWriter.Write w (error ++ bytes "\n")

/-- A plain `GET` request for a path: no raw path, no headers, no body. -/
def GET (path : GoString) : Request :=
  { Method := bytes "GET", Path := path, RawPath := [], Header := [], Body := [] }

/-! ## `encoding/json` on a `map[string]string` -/

/-- Go's `strings.Compare(a, b) < 0`: bytewise lexicographic order. -/
def strLess : GoString → GoString → Bool
  | [], [] => false
  | [], _ :: _ => true
  | _ :: _, [] => false
  | a :: s, b :: t => decide (a < b) || (decide (a = b) && strLess s t)

/-- Insertion of a map entry into a list of entries sorted by key. -/
def insertByKey (e : GoString × GoString) : List (GoString × GoString) → List (GoString × GoString)
  | [] => [e]
  | x :: rest => if strLess e.1 x.1 then e :: x :: rest else x :: insertByKey e rest

/-- The entries of a map in the order the encoder emits them: sorted by key. -/
def sortByKey (m : List (GoString × GoString)) : List (GoString × GoString) :=
  m.foldr insertByKey []

/-- The table `hex = "0123456789abcdef"` of `encoding/json`, indexed. -/
def hex (n : Nat) : Byte := (bytes "0123456789abcdef").getD n 0

/-- The table `htmlSafeSet` of `encoding/json`: the ASCII bytes from space on,
except the double quote, the backslash, and `<`, `>`, `&`. -/
def htmlSafeSet (b : Byte) : Bool :=
  decide (32 ≤ b.val ∧ b.val < 128 ∧ b ≠ 34 ∧ b ≠ 92 ∧ b ≠ 60 ∧ b ≠ 62 ∧ b ≠ 38)

/-- What `appendString` of `encoding/json` (with `escapeHTML` on, the encoder's
default) emits for one byte of the source string.  Bytes from `0x80` on are
copied: the encoder does so for valid UTF-8 other than U+2028 and U+2029, and
its replacement of invalid UTF-8 is not transcribed. -/
def appendStringByte (b : Byte) : GoString :=
  if b.val < 128 then
    if htmlSafeSet b = true then [b]
    else if b = 92 ∨ b = 34 then [92, b]
    else if b = 8 then bytes "\\b"
    else if b = 12 then bytes "\\f"
    else if b = 10 then bytes "\\n"
    else if b = 13 then bytes "\\r"
    else if b = 9 then bytes "\\t"
    else bytes "\\u00" ++ [hex (b.val / 16), hex (b.val % 16)]
  else [b]

/-- The function `appendString` of `encoding/json`: the quoted JSON string. -/
def appendString (src : GoString) : GoString :=
  bytes "\"" ++ (src.map appendStringByte).flatten ++ bytes "\""

/-- The entries `"k":"v"` of an object, separated by commas. -/
def encodeEntries : List (GoString × GoString) → GoString
  | [] => []
  | [e] => appendString e.1 ++ bytes ":" ++ appendString e.2
  | e :: rest => appendString e.1 ++ bytes ":" ++ appendString e.2 ++ bytes "," ++ encodeEntries rest

/-- The JSON encoding of a non-nil `map[string]string`: an object with the keys
in sorted order. -/
def Marshal (m : List (GoString × GoString)) : GoString :=
  bytes "\x7b" ++ encodeEntries (sortByKey m) ++ bytes "\x7d"

/-- Go's `json.NewEncoder(w).Encode(v)`: writes the JSON encoding of `v`,
followed by a newline character, in one `Write`. -/
def Encode (w : ResponseWriter) (v : List (GoString × GoString)) : ResponseWriter :=
  ResponseWriter.Write w (Marshal v ++ bytes "\n")

/-! ## `server/api/handlers.go` -/

/-- Handlers encapsulates dependencies for HTTP handlers. -/
structure Handlers where
  Config : Config

/-- NewHandlers creates a new Handlers instance. -/
def NewHandlers (cfg : Config) : Handlers := { Config := cfg }

/-- What one call of `Render(ctx, w)` on a page component does: the `Write`
calls it makes on `w`, in order, and the text `err.Error()` of the error it
returns, if any. -/
structure RenderResult where
  writes : List GoString
  err : Option GoString

/-- Modelled from the spec: the package `server/templates`, whose `IndexPage` is
not part of the tree.  The spec describes it as an opaque collaborator that
renders the index page given the config (it produces bytes given a config
value) and that can fail; here it is a function from the config and the request
(whose context it receives) to what the rendering does. -/
abbrev Renderer := Config → Request → RenderResult

/-- Modelled from the spec: "`GET /` returns status 200 with non-empty HTML body
when rendering succeeds" - a renderer that succeeds has written a page, which
has at least one byte. -/
def Renderer.WritesPage (render : Renderer) : Prop :=
  ∀ cfg r, (render cfg r).err = none → (render cfg r).writes.flatten ≠ []

/-- IndexHandler renders the main page. -/
def IndexHandler (render : Renderer) (h : Handlers) (w : ResponseWriter) (r : Request) :
    ResponseWriter :=
  let indexPage := render h.Config
  let res := indexPage r
  let w := res.writes.foldl ResponseWriter.Write w
  match res.err with
  | some err => Error w err 500
  | none => w

/-- HelloHandler handles /api/hello requests. -/
def HelloHandler (_h : Handlers) (w : ResponseWriter) (_r : Request) : ResponseWriter :=
  let response := [(bytes "message", bytes "Hello, World!"), (bytes "status", bytes "success")]
  let w := ResponseWriter.SetHeader w (bytes "Content-Type") (bytes "application/json")
  Encode w response

/-- HealthHandler returns basic health info. -/
def HealthHandler (_h : Handlers) (w : ResponseWriter) (_r : Request) : ResponseWriter :=
  let status := [(bytes "status", bytes "ok"), (bytes "version", bytes "1.0.0")]
  let w := ResponseWriter.SetHeader w (bytes "Content-Type") (bytes "application/json")
  Encode w status

/-! ## `path.Clean` and the path canonicalisation of `net/http` -/

/-- The backtracking of `path.Clean` on a `..` element, after its first
`out.w--`: `for out.w > dotdot && out.index(out.w) != '/' { out.w-- }`.  The
third argument is the current `out.w`; the result is the final one. -/
def backtrack (out : GoString) (dotdot : Nat) : Nat → Nat
  | 0 => 0
  | w + 1 => if w + 1 > dotdot ∧ out.getD (w + 1) 0 ≠ 47 then backtrack out dotdot w else w + 1

/-- The main loop of `path.Clean`.  `rest` is the unread part of the path, `out`
the bytes written so far; every iteration reads at least one byte, so the
number of iterations is bounded by the length of the path. -/
def cleanLoop : Nat → GoString → Bool → GoString → Nat → GoString
  | 0, _, _, out, _ => out
  | n + 1, rest, rooted, out, dotdot =>
    match rest with
    | [] => out
    | c :: t =>
      if c = 47 then cleanLoop n t rooted out dotdot
      else if c = 46 ∧ (t = [] ∨ t.head? = some 47) then cleanLoop n t rooted out dotdot
      else if c = 46 ∧ t.head? = some 46 ∧ (t.tail = [] ∨ t.tail.head? = some 47) then
        if out.length > dotdot then
          cleanLoop n t.tail rooted (out.take (backtrack out dotdot (out.length - 1))) dotdot
        else if rooted = false then
          let out := (if out.length > 0 then out ++ [47] else out) ++ [46, 46]
          cleanLoop n t.tail rooted out out.length
        else cleanLoop n t.tail rooted out dotdot
      else
        let out :=
          if (rooted = true ∧ out.length ≠ 1) ∨ (rooted = false ∧ out.length ≠ 0) then out ++ [47]
          else out
        cleanLoop n (rest.dropWhile (fun b => b ≠ 47)) rooted
          (out ++ rest.takeWhile (fun b => b ≠ 47)) dotdot

/-- Go's `path.Clean`. -/
def Clean (path : GoString) : GoString :=
  if path = [] then bytes "."
  else
    let rooted : Bool := path.head? = some 47
    let out :=
      if rooted = true then cleanLoop path.length path.tail true [47] 1
      else cleanLoop path.length path false [] 0
    if out = [] then bytes "." else out

/-- Go's `strings.HasPrefix(s, pre)`. -/
def HasPrefix (s pre : GoString) : Bool := pre.isPrefixOf s

/-- Go's `strings.HasSuffix(s, suf)`. -/
def HasSuffix (s suf : GoString) : Bool := suf.isSuffixOf s

/-- The function `cleanPath` of `net/http`: the canonical path for `p`,
eliminating `.` and `..` elements and repeated slashes, keeping a trailing
slash. -/
def cleanPath (p : GoString) : GoString :=
  if p = [] then bytes "/"
  else
    let p := if p.head? ≠ some 47 then 47 :: p else p
    let np := Clean p
    if p.getLast? = some 47 ∧ np ≠ bytes "/" then
      if p.length = np.length + 1 ∧ HasPrefix p np = true then p else np ++ bytes "/"
    else np

/-! ## `net/url`: the escaped form of a path -/

/-- The function `ishex` of `net/url`. -/
def ishex (c : Byte) : Bool :=
  decide ((48 ≤ c.val ∧ c.val ≤ 57) ∨ (97 ≤ c.val ∧ c.val ≤ 102) ∨ (65 ≤ c.val ∧ c.val ≤ 70))

/-- The function `unhex` of `net/url`. -/
def unhex (c : Byte) : Nat :=
  if 48 ≤ c.val ∧ c.val ≤ 57 then c.val - 48
  else if 97 ≤ c.val ∧ c.val ≤ 102 then c.val - 97 + 10
  else if 65 ≤ c.val ∧ c.val ≤ 70 then c.val - 65 + 10
  else 0

/-- Go's `shouldEscape(c, encodePath)`: letters, digits, the marks `-_.~` and the
reserved characters `$&+,/:;=@` stay as they are in a path, every other byte
(the question mark and the percent sign included) is escaped. -/
def shouldEscape (c : Byte) : Bool :=
  if (97 ≤ c.val ∧ c.val ≤ 122) ∨ (65 ≤ c.val ∧ c.val ≤ 90) ∨ (48 ≤ c.val ∧ c.val ≤ 57) then false
  else if c = 45 ∨ c = 95 ∨ c = 46 ∨ c = 126 then false
  else if c = 36 ∨ c = 38 ∨ c = 43 ∨ c = 44 ∨ c = 47 ∨ c = 58 ∨ c = 59 ∨ c = 61 ∨ c = 64 then false
  else true

/-- The table `upperhex = "0123456789ABCDEF"` of `net/url`, indexed. -/
def upperhex (n : Nat) : Byte := (bytes "0123456789ABCDEF").getD n 0

/-- What `escape(s, encodePath)` writes for one byte: the byte itself, or `%`
and its two upper-case hexadecimal digits. -/
def escapeByte (c : Byte) : GoString :=
  if shouldEscape c = true then [37, upperhex (c.val / 16), upperhex (c.val % 16)] else [c]

/-- Go's `escape(s, encodePath)`. -/
def escape (s : GoString) : GoString := (s.map escapeByte).flatten

/-- Go's `unescape(s, mode)` for the two path modes: every `%XX` becomes the byte
it names; `none` is the `EscapeError` for a `%` that two hexadecimal digits do
not follow. -/
def unescape : GoString → Option GoString
  | [] => some []
  | c :: rest =>
    if c = 37 then
      match rest with
      | a :: b :: rest2 =>
        if ishex a = true ∧ ishex b = true then
          (unescape rest2).map (fun t => Fin.ofNat (unhex a * 16 + unhex b) :: t)
        else none
      | _ => none
    else (unescape rest).map (fun t => c :: t)

/-- Go's `validEncoded(s, encodePath)`. -/
def validEncoded (s : GoString) : Bool :=
  s.all (fun c => decide (c ∈ bytes "!$&'()*+,;=:@[]%") || !shouldEscape c)

/-- Go's `(*URL).EscapedPath`: the raw path when it is a valid encoding of the
path, else the default encoding of the path. -/
def EscapedPath (r : Request) : GoString :=
  if r.RawPath ≠ [] ∧ validEncoded r.RawPath = true ∧ unescape r.RawPath = some r.Path then r.RawPath
  else if r.Path = bytes "*" then bytes "*"
  else escape r.Path

/-- The function `pathUnescape` of `net/http`: the unescaped string, or the
string itself when it is not validly escaped. -/
def pathUnescape (path : GoString) : GoString :=
  match unescape path with
  | some u => u
  | none => path

/-! ## `http.ServeMux` -/

/-- The handlers the program registers. -/
inductive Route where
  | HelloHandler
  | HealthHandler
  | IndexHandler
  | StaticFiles
  deriving DecidableEq, Repr

/-- A parsed pattern without method, host and named wildcards: its literal
segments, and whether it ends in a slash, which stands for a trailing anonymous
multi wildcard. -/
structure Pattern where
  str : GoString
  segments : List GoString
  multi : Bool
  deriving DecidableEq, Repr

/-- The segment loop of `parsePattern` on the path of a pattern; at every turn
the rest begins with a slash. -/
def parseSegments : Nat → GoString → List GoString × Bool
  | 0, _ => ([], false)
  | n + 1, rest =>
    match rest with
    | [] => ([], false)
    | _ :: rest1 =>
      if rest1 = [] then ([], true)
      else
        let r := parseSegments n (rest1.dropWhile (fun b => b ≠ 47))
        (pathUnescape (rest1.takeWhile (fun b => b ≠ 47)) :: r.1, r.2)

/-- The function `parsePattern` of `net/http` on a pattern that is a path of
literal segments. -/
def parsePattern (s : GoString) : Pattern :=
  let r := parseSegments s.length s
  { str := s, segments := r.1, multi := r.2 }

/-- A `http.ServeMux` whose patterns have no method and no host: the registered
patterns with their handlers, in the order of registration. -/
structure ServeMux where
  patterns : List (Pattern × Route)
  deriving DecidableEq

/-- Go's `http.NewServeMux`. -/
def NewServeMux : ServeMux := { patterns := [] }

/-- Go's `(*ServeMux).Handle` for a pattern that conflicts with none of the
registered ones. -/
def ServeMux.Handle (mux : ServeMux) (pattern : GoString) (handler : Route) : ServeMux :=
  { patterns := mux.patterns ++ [(parsePattern pattern, handler)] }

/-- Go's `(*ServeMux).HandleFunc`. -/
def ServeMux.HandleFunc (mux : ServeMux) (pattern : GoString) (handler : Route) : ServeMux :=
  ServeMux.Handle mux pattern handler

/-- A pattern below a node of the routing tree: the segments of the pattern
that lie below the node, the pattern and its handler. -/
structure Entry where
  rest : List GoString
  pat : Pattern
  h : Route
  deriving DecidableEq, Repr

/-- A node of the routing tree, given by the patterns below it.  The leaf that
the node itself is, if any, is the entry with no segment left and no trailing
wildcard; its `multiChild` is the entry with no segment left and a trailing
wildcard; its child for a literal segment holds the entries that begin with
that segment. -/
abbrev RoutingNode := List Entry

/-- The root of the routing tree of a mux. -/
def ServeMux.tree (mux : ServeMux) : RoutingNode :=
  mux.patterns.map (fun ph => { rest := ph.1.segments, pat := ph.1, h := ph.2 })

/-- The method `findChild` of a routing node; the empty node stands for `nil`. -/
def findChild (seg : GoString) (n : RoutingNode) : RoutingNode :=
  n.filterMap (fun e =>
    match e.rest with
    | s :: rest => if s = seg then some { e with rest := rest } else none
    | [] => none)

/-- The function `firstSegment` of `net/http`: the first segment of a path,
unescaped if possible, and the rest of the path. -/
def firstSegment (path : GoString) : GoString × GoString :=
  if path = bytes "/" then (bytes "/", [])
  else
    let path := path.drop 1
    (pathUnescape (path.takeWhile (fun b => b ≠ 47)), path.dropWhile (fun b => b ≠ 47))

/-- The method `matchPath` of a routing node: literal children first, then the
multi wildcard.  No pattern of the program has a single wildcard.  Every call
shortens the path, so the first argument bounds the depth. -/
def matchPath : Nat → RoutingNode → GoString → Option Entry
  | 0, _, _ => none
  | k + 1, n, path =>
    if n = [] then none
    else if path = [] then n.find? (fun e => decide (e.rest = [] ∧ e.pat.multi = false))
    else
      match matchPath k (findChild (firstSegment path).1 n) (firstSegment path).2 with
      | some e => some e
      | none => n.find? (fun e => decide (e.rest = [] ∧ e.pat.multi = true))

/-- The method `match` of the routing tree for a mux without host and method
patterns. -/
def ServeMux.matchTree (mux : ServeMux) (path : GoString) : Option Entry :=
  matchPath (path.length + 1) (ServeMux.tree mux) path

/-- The function `exactMatch` of `net/http`. -/
def exactMatch (n : Option Entry) (path : GoString) : Bool :=
  match n with
  | none => false
  | some e =>
    if e.pat.multi = false then true
    else if path ≠ [] ∧ path.getLast? ≠ some 47 then false
    else decide (e.pat.segments.length + 1 = path.count 47)

/-- The method `matchOrRedirect` of `ServeMux`: the match for the path and, when
the path has no exact match but the path with a slash appended has one, the
path to redirect to.  `u` is the `URL.Path` of the request, `none` for the call
that asks for no redirect. -/
def ServeMux.matchOrRedirect (mux : ServeMux) (path : GoString) (u : Option GoString) :
    Option Entry × Option GoString :=
  let n := ServeMux.matchTree mux path
  match u with
  | none => (n, none)
  | some upath =>
    if exactMatch n path = false ∧ HasSuffix path (bytes "/") = false then
      if exactMatch (ServeMux.matchTree mux (path ++ bytes "/")) (path ++ bytes "/") = true then
        (none, some (cleanPath upath ++ bytes "/"))
      else (n, none)
    else (n, none)

/-- What `(*ServeMux).Handler` selects for a request: a registered handler, a
`RedirectHandler` to the URL with the given path, or the `NotFoundHandler`.
The status of the redirect is not part of the model: the library has used 301
and, in later releases, 307. -/
inductive Dispatch where
  | handler (h : Route)
  | redirect (path : GoString)
  | notFound
  deriving DecidableEq, Repr

/-- The handler for a match: no pattern has a method, so no match means
`NotFoundHandler`. -/
def Dispatch.ofMatch : Option Entry → Dispatch
  | some e => Dispatch.handler e.h
  | none => Dispatch.notFound

/-- Go's `(*ServeMux).Handler`, that is the method `findHandler` of the mux of
Go 1.22 and later: the request is matched on its escaped path; `CONNECT`
requests are not canonicalised, every other request is redirected to its
cleaned path when the path is not clean. -/
def ServeMux.Handler (mux : ServeMux) (r : Request) : Dispatch :=
  let escapedPath := EscapedPath r
  if r.Method = bytes "CONNECT" then
    match (ServeMux.matchOrRedirect mux escapedPath (some r.Path)).2 with
    | some u => Dispatch.redirect u
    | none => Dispatch.ofMatch (ServeMux.matchOrRedirect mux escapedPath none).1
  else
    let path := cleanPath escapedPath
    match (ServeMux.matchOrRedirect mux path (some r.Path)).2 with
    | some u => Dispatch.redirect u
    | none =>
      if path ≠ escapedPath then Dispatch.redirect path
      else Dispatch.ofMatch (ServeMux.matchOrRedirect mux path (some r.Path)).1

/-- RegisterRoutes registers all HTTP handlers to the given mux/router. -/
def RegisterRoutes (r : ServeMux) : ServeMux :=
  let r := ServeMux.HandleFunc r (bytes "/api/hello") Route.HelloHandler
  let r := ServeMux.HandleFunc r (bytes "/health") Route.HealthHandler
  ServeMux.HandleFunc r (bytes "/") Route.IndexHandler

/-- The mux `main` builds: the routes of `RegisterRoutes`, then the static files
under `/static/`. -/
def mainMux : ServeMux :=
  let mux := NewServeMux
  let mux := RegisterRoutes mux
  ServeMux.Handle mux (bytes "/static/") Route.StaticFiles

/-- Go's `strings.TrimPrefix`. -/
def TrimPrefix (s pre : GoString) : GoString :=
  if HasPrefix s pre = true then s.drop pre.length else s

/-- Go's `http.StripPrefix(pre, h)` for a non-empty prefix: the request `h` is
called with, or `none` when the wrapper answers with `NotFound` itself. -/
def StripPrefix (pre : GoString) (r : Request) : Option Request :=
  let p := TrimPrefix r.Path pre
  let rp := TrimPrefix r.RawPath pre
  if p.length < r.Path.length ∧ (r.RawPath = [] ∨ rp.length < r.RawPath.length) then
    some { r with Path := p, RawPath := rp }
  else none

/-! ## `http.FileServer(http.Dir("web/static"))` -/

/-- What opening an OS path and asking for its `Stat` finds: one of the errors
`fs.ErrNotExist`, `fs.ErrPermission`, some other error, or a regular file with
its content, or a directory. -/
inductive Node where
  | notExist
  | permission
  | failure
  | file (content : GoString)
  | dir
  deriving DecidableEq, Repr

/-- The file system the server runs on, by OS path relative to the working
directory. -/
abbrev FileSystem := GoString → Node

/-- Go's `path.Base`. -/
def Base (path : GoString) : GoString :=
  if path = [] then bytes "."
  else
    let path := (path.reverse.dropWhile (fun b => b = 47)).reverse
    let path := (path.reverse.takeWhile (fun b => b ≠ 47)).reverse
    if path = [] then bytes "/" else path

/-- Go's `strings.TrimSuffix`. -/
def TrimSuffix (s suf : GoString) : GoString :=
  if HasSuffix s suf = true then s.take (s.length - suf.length) else s

/-- The prefixes `strings.Join(parts[:i+1], "/")` of a path whose part `i` is
not empty, in order. -/
def partPrefixes (name : GoString) : List GoString :=
  ((List.range (name.length + 1)).filter (fun k =>
      decide (0 < k ∧ name.getD (k - 1) 0 ≠ 47 ∧ (k = name.length ∨ name.getD k 0 = 47)))).map
    (fun k => name.take k)

/-- The loop of `mapOpenError` of `net/http` on an error that is neither
`ErrNotExist` nor `ErrPermission`: when a parent of the path is a regular file
the error becomes `ErrNotExist`. -/
def mapOpenErrorLoop (fs : FileSystem) : List GoString → Node
  | [] => Node.failure
  | pre :: rest =>
    match fs pre with
    | Node.file _ => Node.notExist
    | Node.dir => mapOpenErrorLoop fs rest
    | _ => Node.failure

/-- A continuation byte of UTF-8. -/
def isCont (c : Byte) : Bool := decide (128 ≤ c.val ∧ c.val ≤ 191)

/-- Go's `utf8.ValidString`: one-byte runes, and the two-, three- and four-byte
sequences whose second byte lies in the range the first byte accepts. -/
def ValidString : GoString → Bool
  | [] => true
  | b :: rest =>
    if b.val < 128 then ValidString rest
    else if 194 ≤ b.val ∧ b.val ≤ 223 then
      match rest with
      | c1 :: r => isCont c1 && ValidString r
      | _ => false
    else if 224 ≤ b.val ∧ b.val ≤ 239 then
      match rest with
      | c1 :: c2 :: r =>
        decide ((if b.val = 224 then 160 else 128) ≤ c1.val ∧
          c1.val ≤ (if b.val = 237 then 159 else 191)) && isCont c2 && ValidString r
      | _ => false
    else if 240 ≤ b.val ∧ b.val ≤ 244 then
      match rest with
      | c1 :: c2 :: c3 :: r =>
        decide ((if b.val = 240 then 144 else 128) ≤ c1.val ∧
          c1.val ≤ (if b.val = 244 then 143 else 191)) && isCont c2 && isCont c3 && ValidString r
      | _ => false
    else false

/-- The element loop of `fs.ValidPath`: no element is empty, `.` or `..`. -/
def validElements : Nat → GoString → Bool
  | 0, _ => false
  | k + 1, name =>
    let elem := name.takeWhile (fun b => b ≠ 47)
    if elem = [] ∨ elem = bytes "." ∨ elem = bytes ".." then false
    else if elem.length = name.length then true
    else validElements k (name.drop (elem.length + 1))

/-- Go's `fs.ValidPath`. -/
def ValidPath (name : GoString) : Bool :=
  if ValidString name = false then false
  else if name = bytes "." then true
  else validElements (name.length + 1) name

/-- Go's `filepath.Localize` on a system whose separator is `/`: whether the
path is accepted, that is valid by `fs.ValidPath` and without a NUL byte. -/
def Localize (path : GoString) : Bool :=
  ValidPath path && decide ((0 : Byte) ∉ path)

/-- Go's `http.Dir(dir).Open(name)` on a system whose separator is `/`: the name
is cleaned as a rooted path and passed through `filepath.Localize`; a name that
passes is joined to the directory with `filepath.Join` and opened.  A name that
`Localize` refuses (invalid UTF-8, a NUL byte) is not opened; the file server
answers the error with `404 page not found`, as it does for a file that does
not exist, so the model returns `notExist` for it. -/
def DirOpen (fs : FileSystem) (dir name : GoString) : Node :=
  let path := (Clean (bytes "/" ++ name)).drop 1
  let path := if path = [] then bytes "." else path
  if Localize path = false then Node.notExist
  else
    let fullName := Clean (dir ++ bytes "/" ++ path)
    match fs fullName with
    | Node.failure => mapOpenErrorLoop fs (partPrefixes fullName)
    | n => n

/-- What the file server answers with. `dirList` stands for the HTML listing of
a directory and `conditional` for the handling of a request that carries a
precondition or range header; the bytes of these two answers are not
transcribed. -/
inductive FileResponse where
  | redirect (location : GoString)
  | error (msg : GoString) (code : Nat)
  | content (data : GoString)
  | dirList
  | conditional
  deriving DecidableEq, Repr

/-- The function `toHTTPError` of `net/http`. -/
def toHTTPError : Node → FileResponse
  | Node.notExist => FileResponse.error (bytes "404 page not found") 404
  | Node.permission => FileResponse.error (bytes "403 Forbidden") 403
  | _ => FileResponse.error (bytes "500 Internal Server Error") 500

/-- The request carries one of the headers `checkPreconditions` and the range
handling of `serveContent` look at. -/
def isConditional (r : Request) : Bool :=
  [bytes "If-Match", bytes "If-Unmodified-Since", bytes "If-None-Match",
   bytes "If-Modified-Since", bytes "Range"].any (fun k => decide (Header.Get r.Header k ≠ []))

/-- The function `serveContent` of `net/http` on a file of known content: a
request without precondition and range headers gets the whole content. -/
def serveContent (r : Request) (data : GoString) : FileResponse :=
  if isConditional r = true then FileResponse.conditional else FileResponse.content data

/-- The function `serveFile` of `net/http`, called by the file server with
`redirect = true`, for a request without a query. -/
def serveFile (fs : FileSystem) (root : GoString) (r : Request) (name : GoString)
    (redirect : Bool) : FileResponse :=
  if HasSuffix r.Path (bytes "/index.html") = true then FileResponse.redirect (bytes "./")
  else
    match DirOpen fs root name with
    | Node.file data =>
      if redirect = true ∧ r.Path.getLast? = some 47 then
        let base := Base r.Path
        if base = bytes "/" ∨ base = bytes "." then
          FileResponse.error (bytes "http: attempting to traverse a non-directory") 500
        else FileResponse.redirect (bytes "../" ++ base)
      else serveContent r data
    | Node.dir =>
      if r.Path.getLast? ≠ some 47 then FileResponse.redirect (Base r.Path ++ bytes "/")
      else
        let index := TrimSuffix name (bytes "/") ++ bytes "/index.html"
        match DirOpen fs root index with
        | Node.file data => serveContent r data
        | _ =>
          if Header.Get r.Header (bytes "If-Modified-Since") ≠ [] then FileResponse.conditional
          else FileResponse.dirList
    | err => toHTTPError err

/-- The handler `http.FileServer(http.Dir(root))`. -/
def FileServer (fs : FileSystem) (root : GoString) (r : Request) : FileResponse :=
  let upath := r.Path
  let upath := if HasPrefix upath (bytes "/") = true then upath else bytes "/" ++ upath
  serveFile fs root { r with Path := upath } (Clean upath) true

/-- The handler `main` registers under `/static/`:
`http.StripPrefix("/static/", http.FileServer(http.Dir("web/static")))`. -/
def staticFiles (fs : FileSystem) (r : Request) : FileResponse :=
  match StripPrefix (bytes "/static/") r with
  | some r2 => FileServer fs (bytes "web/static") r2
  | none => FileResponse.error (bytes "404 page not found") 404

/-- The effect of an answer of the file server on the response writer; `none`
for the two answers whose bytes are not transcribed. -/
def FileResponse.write (w : ResponseWriter) (r : Request) : FileResponse → Option ResponseWriter
  | FileResponse.redirect location =>
    some (ResponseWriter.WriteHeader (ResponseWriter.SetHeader w (bytes "Location") location) 301)
  | FileResponse.error msg code => some (Error w msg code)
  | FileResponse.content data =>
    let w := ResponseWriter.WriteHeader w 200
    some (if r.Method = bytes "HEAD" then w else ResponseWriter.Write w data)
  | FileResponse.dirList => none
  | FileResponse.conditional => none

/-- A file system holding `web/static` with two files, `index.html` and
`css/app.css`. -/
def sampleFS : FileSystem := fun name =>
  if name = bytes "web" ∨ name = bytes "web/static" ∨ name = bytes "web/static/css" then Node.dir
  else if name = bytes "web/static/index.html" then Node.file (bytes "<html></html>")
  else if name = bytes "web/static/css/app.css" then Node.file (bytes "body \x7b\x7d")
  else Node.notExist

/-- A file name: one path element, that is a non-empty string without `/` and
without a NUL byte, other than `.` and `..`. -/
def IsFileName (f : GoString) : Prop :=
  f ≠ [] ∧ (47 : Byte) ∉ f ∧ (0 : Byte) ∉ f ∧ f ≠ bytes "." ∧ f ≠ bytes ".."

instance : DecidablePred IsFileName := fun f => by unfold IsFileName; infer_instance

/-- The slash-separated path with the given elements. -/
def joinPath : List GoString → GoString
  | [] => []
  | [e] => e
  | e :: e2 :: rest => e ++ 47 :: joinPath (e2 :: rest)

/-- The elements of a relative path to a file: at least one element, each of
them a file name. -/
def IsRelPath (elems : List GoString) : Prop :=
  elems ≠ [] ∧ ∀ e ∈ elems, IsFileName e

instance : DecidablePred IsRelPath := fun l => by unfold IsRelPath; infer_instance

/-- A renderer that fails at once with the error `render failed`. -/
def failingRenderer : Renderer := fun _ _ => { writes := [], err := some (bytes "render failed") }

/-- A renderer that writes a small page in two pieces and succeeds. -/
def pageRenderer : Renderer :=
  fun _ _ => { writes := [bytes "<!doctype html>", bytes "<html></html>"], err := none }

/-- The leaf of the routing tree of `main` for the pattern `/api/hello`. -/
def helloEntry : Entry :=
  { rest := [], pat := parsePattern (bytes "/api/hello"), h := Route.HelloHandler }

/-- The leaf of the routing tree of `main` for the pattern `/health`. -/
def healthEntry : Entry :=
  { rest := [], pat := parsePattern (bytes "/health"), h := Route.HealthHandler }

/-- The leaf of the routing tree of `main` for the pattern `/`. -/
def indexEntry : Entry :=
  { rest := [], pat := parsePattern (bytes "/"), h := Route.IndexHandler }

/-- The leaf of the routing tree of `main` for the pattern `/static/`. -/
def staticEntry : Entry :=
  { rest := [], pat := parsePattern (bytes "/static/"), h := Route.StaticFiles }

/-- A `GET` request for `/static/css/app.css` as a browser sends it, with an
`Accept` and a `User-Agent` header. -/
def sampleRequest : Request :=
  { Method := bytes "GET", Path := bytes "/static/css/app.css", RawPath := [],
    Header := [(bytes "Accept", bytes "text/css,*/*;q=0.1"),
      (bytes "User-Agent", bytes "curl/8.5.0")],
    Body := [] }

/-! ## Lemmas on `strconv.Atoi` -/

theorem foldl_digit_ge (ds : GoString) (a : Nat) :
    a ≤ ds.foldl (fun acc d => 10 * acc + (d.val - 48)) a := by
  induction ds generalizing a with
  | nil => simp
  | cons d t ih =>
    simp only [List.foldl_cons]
    have := ih (10 * a + (d.val - 48))
    omega

theorem foldl_digit_lt (ds : GoString) (a : Nat) (h : ∀ d ∈ ds, isDigit d) :
    ds.foldl (fun acc d => 10 * acc + (d.val - 48)) a < (a + 1) * 10 ^ ds.length := by
  induction ds generalizing a with
  | nil => simp
  | cons d t ih =>
    simp only [List.foldl_cons, List.length_cons]
    have hd := h d (List.mem_cons_self _ _)
    have := ih (10 * a + (d.val - 48)) (fun x hx => h x (List.mem_cons_of_mem _ hx))
    unfold isDigit at hd
    have h2 : (10 * a + (d.val - 48) + 1) * 10 ^ t.length ≤ (a + 1) * 10 ^ (t.length + 1) := by
      rw [pow_succ]
      have : (a + 1) * (10 ^ t.length * 10) = (10 * a + 10) * 10 ^ t.length := by ring
      rw [this]
      apply Nat.mul_le_mul_right
      omega
    omega

theorem byte_sub48_val (ch : Byte) : ((ch - 48 : Byte)).val = (ch.val + 208) % 256 := by
  rw [Fin.sub_def]
  simp
  omega

theorem byte_sub48_gt (ch : Byte) : ((ch - 48 : Byte) > 9) ↔ ¬ isDigit ch := by
  rw [gt_iff_lt, Fin.lt_def, byte_sub48_val]
  unfold isDigit
  have := ch.isLt
  simp
  omega

theorem atoiFastLoop_digits (ds : GoString) (a : Nat) (h : ∀ d ∈ ds, isDigit d)
    (hb : ds.foldl (fun acc d => 10 * acc + (d.val - 48)) a < 9223372036854775808) :
    atoiFastLoop ds (a : Int)
      = (((ds.foldl (fun acc d => 10 * acc + (d.val - 48)) a : Nat) : Int), none) := by
  induction ds generalizing a with
  | nil => simp [atoiFastLoop]
  | cons d t ih =>
    have hd := h d (List.mem_cons_self _ _)
    have hng : ¬ ((d - 48 : Byte) > 9) := by rw [byte_sub48_gt]; exact not_not.mpr hd
    simp only [List.foldl_cons] at hb ⊢
    have hge := foldl_digit_ge t (10 * a + (d.val - 48))
    have hv : wrapInt64 ((a : Int) * 10 + (((d - 48 : Byte)).val : Int))
        = ((10 * a + (d.val - 48) : Nat) : Int) := by
      rw [byte_sub48_val]
      unfold wrapInt64
      unfold isDigit at hd
      omega
    simp only [atoiFastLoop]
    rw [if_neg hng, hv]
    exact ih _ (fun x hx => h x (List.mem_cons_of_mem _ hx)) hb

theorem atoiFastLoop_none (ds : GoString) (a : Int) (h : (atoiFastLoop ds a).2 = none) :
    ∀ d ∈ ds, isDigit d := by
  induction ds generalizing a with
  | nil => simp
  | cons d t ih =>
    simp only [atoiFastLoop] at h
    by_cases hg : ((d - 48 : Byte) > 9)
    · rw [if_pos hg] at h
      simp at h
    · rw [if_neg hg] at h
      have hd : isDigit d := by
        by_contra hc
        exact hg ((byte_sub48_gt d).mpr hc)
      intro x hx
      rcases List.mem_cons.mp hx with rfl | hx
      · exact hd
      · exact ih _ h x hx

theorem parseUintLoop_digits (ds : GoString) (a : Nat) (h : ∀ d ∈ ds, isDigit d)
    (hb : ds.foldl (fun acc d => 10 * acc + (d.val - 48)) a < 18446744073709551616) :
    parseUintLoop ds a = (ds.foldl (fun acc d => 10 * acc + (d.val - 48)) a, none) := by
  induction ds generalizing a with
  | nil => simp [parseUintLoop]
  | cons d t ih =>
    have hd := h d (List.mem_cons_self _ _)
    simp only [List.foldl_cons] at hb ⊢
    have hge := foldl_digit_ge t (10 * a + (d.val - 48))
    unfold isDigit at hd
    have h1 : (48 ≤ d.val ∧ d.val ≤ 57) ∨ (97 ≤ lower d ∧ lower d ≤ 122) := Or.inl hd
    have h3 : ¬ (d.val - 48 ≥ 10) := by omega
    have h4 : ¬ (a ≥ 18446744073709551615 / 10 + 1) := by
      norm_num
      omega
    have h5 : wrapUint64 (a * 10) = a * 10 := by unfold wrapUint64; omega
    have h6 : wrapUint64 (a * 10 + (d.val - 48)) = 10 * a + (d.val - 48) := by
      unfold wrapUint64; omega
    have h7 : ¬ (10 * a + (d.val - 48) < a * 10 ∨ 10 * a + (d.val - 48) > 18446744073709551615) := by
      omega
    simp only [parseUintLoop]
    rw [if_pos h1, if_pos hd, if_neg h3, if_neg h4, h5, h6, if_neg h7]
    exact ih _ (fun x hx => h x (List.mem_cons_of_mem _ hx)) hb

theorem parseUintLoop_none (ds : GoString) (a : Nat) (ha : a < 18446744073709551616)
    (h : (parseUintLoop ds a).2 = none) :
    (∀ d ∈ ds, isDigit d) ∧
      (parseUintLoop ds a).1 = ds.foldl (fun acc d => 10 * acc + (d.val - 48)) a := by
  induction ds generalizing a with
  | nil => simp [parseUintLoop]
  | cons d t ih =>
    simp only [parseUintLoop] at h ⊢
    by_cases h1 : (48 ≤ d.val ∧ d.val ≤ 57) ∨ (97 ≤ lower d ∧ lower d ≤ 122)
    · rw [if_pos h1] at h ⊢
      by_cases hd : 48 ≤ d.val ∧ d.val ≤ 57
      · rw [if_pos hd] at h ⊢
        have h3 : ¬ (d.val - 48 ≥ 10) := by omega
        rw [if_neg h3] at h ⊢
        by_cases h4 : a ≥ 18446744073709551615 / 10 + 1
        · rw [if_pos h4] at h
          simp at h
        · rw [if_neg h4] at h ⊢
          have h4b : a ≤ 1844674407370955161 := by
            norm_num at h4
            omega
          have h5 : wrapUint64 (a * 10) = a * 10 := by unfold wrapUint64; omega
          rw [h5] at h ⊢
          by_cases h7 : wrapUint64 (a * 10 + (d.val - 48)) < a * 10 ∨
              wrapUint64 (a * 10 + (d.val - 48)) > 18446744073709551615
          · rw [if_pos h7] at h
            simp at h
          · rw [if_neg h7] at h ⊢
            have h6 : wrapUint64 (a * 10 + (d.val - 48)) = 10 * a + (d.val - 48) := by
              unfold wrapUint64 at h7 ⊢
              omega
            rw [h6] at h ⊢
            have hlt : 10 * a + (d.val - 48) < 18446744073709551616 := by
              unfold wrapUint64 at h7
              omega
            obtain ⟨hall, hval⟩ := ih _ hlt h
            refine ⟨?_, by simpa using hval⟩
            intro x hx
            rcases List.mem_cons.mp hx with rfl | hx
            · exact hd
            · exact hall x hx
      · rw [if_neg hd] at h
        have h3 : lower d - 97 + 10 ≥ 10 := by omega
        rw [if_pos h3] at h
        simp at h
    · rw [if_neg h1] at h
      simp at h

theorem parseUintLoop_range (ds : GoString) (a : Nat)
    (h : (parseUintLoop ds a).2 = some NumError.ErrRange) :
    (parseUintLoop ds a).1 = 18446744073709551615 := by
  induction ds generalizing a with
  | nil => simp [parseUintLoop] at h
  | cons d t ih =>
    simp only [parseUintLoop] at h ⊢
    by_cases h1 : (48 ≤ d.val ∧ d.val ≤ 57) ∨ (97 ≤ lower d ∧ lower d ≤ 122)
    · rw [if_pos h1] at h ⊢
      generalize (if 48 ≤ d.val ∧ d.val ≤ 57 then d.val - 48 else lower d - 97 + 10) = dv at h ⊢
      by_cases h3 : dv ≥ 10
      · rw [if_pos h3] at h
        simp at h
      · rw [if_neg h3] at h ⊢
        by_cases h4 : a ≥ 18446744073709551615 / 10 + 1
        · rw [if_pos h4]
        · rw [if_neg h4] at h ⊢
          by_cases h7 : wrapUint64 (wrapUint64 (a * 10) + dv) < wrapUint64 (a * 10) ∨
              wrapUint64 (wrapUint64 (a * 10) + dv) > 18446744073709551615
          · rw [if_pos h7]
          · rw [if_neg h7] at h ⊢
            exact ih _ h
    · rw [if_neg h1] at h
      simp at h

theorem digit_ne_sign (d : Byte) (hd : isDigit d) : d ≠ 43 ∧ d ≠ 45 := by
  unfold isDigit at hd
  constructor
  · intro h; subst h; exact absurd hd (by decide)
  · intro h; subst h; exact absurd hd (by decide)

theorem ParseUint_digits (ds : GoString) (hne : ds ≠ []) (h : ∀ d ∈ ds, isDigit d)
    (hb : digitsValue ds < 18446744073709551616) :
    ParseUint ds = (digitsValue ds, none) := by
  unfold ParseUint
  rw [if_neg hne]
  exact parseUintLoop_digits ds 0 h hb

theorem ParseUint_cases (s : GoString) :
    ((ParseUint s).2 = none ∧ s ≠ [] ∧ (∀ d ∈ s, isDigit d) ∧ (ParseUint s).1 = digitsValue s) ∨
    (ParseUint s).2 = some NumError.ErrSyntax ∨
    ((ParseUint s).2 = some NumError.ErrRange ∧ (ParseUint s).1 = 18446744073709551615) := by
  unfold ParseUint
  by_cases hs : s = []
  · rw [if_pos hs]; right; left; rfl
  · rw [if_neg hs]
    cases hr : (parseUintLoop s 0).2 with
    | none =>
      left
      obtain ⟨h1, h2⟩ := parseUintLoop_none s 0 (by norm_num) hr
      exact ⟨rfl, hs, h1, h2⟩
    | some e =>
      cases e with
      | ErrSyntax => right; left; rfl
      | ErrRange => right; right; exact ⟨rfl, parseUintLoop_range s 0 hr⟩

theorem ParseInt_of_integerString (v : GoString) (n : Int) (h : IsIntegerString v n)
    (hr : InIntRange n) : ParseInt v = (n, none) := by
  obtain ⟨ds, hne, hall, hcase⟩ := h
  unfold InIntRange at hr
  cases ds with
  | nil => exact absurd rfl hne
  | cons d0 t0 =>
    obtain ⟨h43, h45⟩ := digit_ne_sign d0 (hall d0 (List.mem_cons_self _ _))
    rcases hcase with ⟨rfl, rfl⟩ | ⟨rfl, rfl⟩ | ⟨rfl, rfl⟩
    · have hpu := ParseUint_digits (d0 :: t0) hne hall (by omega)
      simp only [ParseInt, h43, h45, or_self, if_false, hpu, decide_False]
      generalize digitsValue (d0 :: t0) = m at hr ⊢
      have hw : wrapInt64 (m : Int) = m := by unfold wrapInt64; omega
      have c1 : ¬ (m ≥ 9223372036854775808) := by omega
      simp [c1, hw]
    · have hpu := ParseUint_digits (d0 :: t0) hne hall (by omega)
      simp only [ParseInt, eq_self_iff_true, true_or, or_true, if_true, hpu]
      generalize digitsValue (d0 :: t0) = m at hr ⊢
      have hw : wrapInt64 (m : Int) = m := by unfold wrapInt64; omega
      have c1 : ¬ (m ≥ 9223372036854775808) := by omega
      simp [c1, hw]
    · have hpu := ParseUint_digits (d0 :: t0) hne hall (by omega)
      simp only [ParseInt, eq_self_iff_true, true_or, or_true, if_true, hpu]
      generalize digitsValue (d0 :: t0) = m at hr ⊢
      have hw : wrapInt64 (-wrapInt64 (m : Int)) = -(m : Int) := by unfold wrapInt64; omega
      have c1 : ¬ (m > 9223372036854775808) := by omega
      simp [c1, hw]

theorem ParseInt_none (v : GoString) (h : (ParseInt v).2 = none) :
    IsIntegerString v (ParseInt v).1 ∧ InIntRange (ParseInt v).1 := by
  cases v with
  | nil => simp [ParseInt] at h
  | cons c t =>
    simp only [ParseInt] at h ⊢
    generalize hs1 : (if c = 43 ∨ c = 45 then t else c :: t) = s1 at h ⊢
    rcases ParseUint_cases s1 with ⟨h2, hne, hall, hval⟩ | h2 | ⟨h2, hval⟩
    · rw [h2, hval] at h ⊢
      generalize hm : digitsValue s1 = m at h ⊢
      by_cases hc : c = 45
      · subst hc
        simp at hs1
        subst hs1
        by_cases c2 : m > 9223372036854775808
        · simp [c2] at h
        · have hw : wrapInt64 (-wrapInt64 (m : Int)) = -(m : Int) := by unfold wrapInt64; omega
          simp only [eq_self_iff_true, decide_True, c2, and_false, false_and, if_false, if_true,
            Bool.true_eq_false, hw, reduceCtorEq]
          refine ⟨⟨t, hne, hall, Or.inr (Or.inr ⟨rfl, by rw [hm]⟩)⟩, ?_⟩
          unfold InIntRange
          omega
      · by_cases c1 : m ≥ 9223372036854775808
        · simp [hc, c1] at h
        · have hw : wrapInt64 (m : Int) = (m : Int) := by unfold wrapInt64; omega
          simp only [hc, decide_False, c1, and_false, false_and, if_false, hw,
            Bool.false_eq_true, reduceCtorEq]
          refine ⟨?_, by unfold InIntRange; omega⟩
          by_cases h43 : c = 43
          · subst h43
            simp at hs1
            subst hs1
            exact ⟨t, hne, hall, Or.inr (Or.inl ⟨rfl, by rw [hm]⟩)⟩
          · simp [hc, h43] at hs1
            subst hs1
            exact ⟨c :: t, hne, hall, Or.inl ⟨rfl, by rw [hm]⟩⟩
    · rw [if_pos h2] at h
      simp at h
    · rw [h2, hval] at h
      by_cases hc : c = 45 <;> simp [hc] at h

theorem digitsValue_lt_of_short (ds : GoString) (hlen : ds.length < 19)
    (hall : ∀ d ∈ ds, isDigit d) : digitsValue ds < 1000000000000000000 := by
  have h1 := foldl_digit_lt ds 0 hall
  have h2 : 10 ^ ds.length ≤ 10 ^ 18 := Nat.pow_le_pow_right (by norm_num) (by omega)
  unfold digitsValue
  norm_num at h1 h2 ⊢
  omega

theorem atoiFastLoop_short (ds : GoString) (hlen : ds.length < 19)
    (hall : ∀ d ∈ ds, isDigit d) : atoiFastLoop ds 0 = ((digitsValue ds : Int), none) := by
  have hb := digitsValue_lt_of_short ds hlen hall
  have := atoiFastLoop_digits ds 0 hall (by unfold digitsValue at hb; omega)
  simpa [digitsValue] using this

theorem Atoi_of_integerString (v : GoString) (n : Int) (h : IsIntegerString v n)
    (hr : InIntRange n) : Atoi v = (n, none) := by
  unfold Atoi
  by_cases hfast : 0 < v.length ∧ v.length < 19
  · rw [if_pos hfast]
    obtain ⟨ds, hne, hall, hcase⟩ := h
    cases ds with
    | nil => exact absurd rfl hne
    | cons d0 t0 =>
      obtain ⟨h43, h45⟩ := digit_ne_sign d0 (hall d0 (List.mem_cons_self _ _))
      rcases hcase with ⟨rfl, rfl⟩ | ⟨rfl, rfl⟩ | ⟨rfl, rfl⟩
      · have hl := atoiFastLoop_short (d0 :: t0) hfast.2 hall
        simp [h43, h45, hl]
      · have hl := atoiFastLoop_short (d0 :: t0)
          (by simp only [List.length_cons] at hfast ⊢; omega) hall
        simp [hl]
      · have hl := atoiFastLoop_short (d0 :: t0)
          (by simp only [List.length_cons] at hfast ⊢; omega) hall
        have hb := digitsValue_lt_of_short (d0 :: t0)
          (by simp only [List.length_cons] at hfast ⊢; omega) hall
        have hw : wrapInt64 (-(digitsValue (d0 :: t0) : Int)) = -(digitsValue (d0 :: t0) : Int) := by
          unfold wrapInt64; omega
        simp [hl, hw]
  · rw [if_neg hfast]
    have hp := ParseInt_of_integerString v n h hr
    have hw : wrapInt64 n = n := by unfold wrapInt64; unfold InIntRange at hr; omega
    simp [hp, hw]

theorem Atoi_none (v : GoString) (h : (Atoi v).2 = none) :
    IsIntegerString v (Atoi v).1 ∧ InIntRange (Atoi v).1 := by
  unfold Atoi at h ⊢
  by_cases hfast : 0 < v.length ∧ v.length < 19
  · rw [if_pos hfast] at h ⊢
    cases v with
    | nil => simp at hfast
    | cons c t =>
      simp only at h ⊢
      by_cases hc1 : (c = 45 ∨ c = 43) ∧ t.length < 1
      · rw [if_pos hc1] at h
        simp at h
      · rw [if_neg hc1] at h ⊢
        generalize hs1 : (if c = 45 ∨ c = 43 then t else c :: t) = s1 at h ⊢
        by_cases hr2 : (atoiFastLoop s1 0).2 ≠ none
        · rw [if_pos hr2] at h
          exact absurd h hr2
        · rw [if_neg hr2]
          have hall := atoiFastLoop_none s1 0 (not_not.mp hr2)
          have hlen : s1.length < 19 := by
            rw [← hs1]
            split <;> simp only [List.length_cons] at hfast ⊢ <;> omega
          have hl := atoiFastLoop_short s1 hlen hall
          have hb := digitsValue_lt_of_short s1 hlen hall
          rw [hl]
          simp only
          by_cases h45 : c = 45
          · subst h45
            simp at hs1
            subst hs1
            have hne : t ≠ [] := by
              intro ht
              apply hc1
              simp [ht]
            have hw : wrapInt64 (-(digitsValue t : Int)) = -(digitsValue t : Int) := by
              unfold wrapInt64; omega
            rw [if_pos rfl, hw]
            exact ⟨⟨t, hne, hall, Or.inr (Or.inr ⟨rfl, rfl⟩)⟩, by unfold InIntRange; omega⟩
          · rw [if_neg h45]
            refine ⟨?_, by unfold InIntRange; omega⟩
            by_cases h43 : c = 43
            · subst h43
              simp at hs1
              subst hs1
              have hne : t ≠ [] := by
                intro ht
                apply hc1
                simp [ht]
              exact ⟨t, hne, hall, Or.inr (Or.inl ⟨rfl, rfl⟩)⟩
            · simp [h45, h43] at hs1
              subst hs1
              exact ⟨c :: t, by simp, hall, Or.inl ⟨rfl, rfl⟩⟩
  · rw [if_neg hfast] at h ⊢
    simp only at h ⊢
    obtain ⟨h1, h2⟩ := ParseInt_none v h
    have hw : wrapInt64 (ParseInt v).1 = (ParseInt v).1 := by
      unfold wrapInt64; unfold InIntRange at h2; omega
    rw [hw]
    exact ⟨h1, h2⟩

/-! ## Lemmas on `LoadConfig` -/

theorem getEnvAsInt_none (env : Env) (key : GoString) (d : Int) (h : env key = none) :
    getEnvAsInt env key d = d := by
  unfold getEnvAsInt
  rw [h]

theorem getEnvAsInt_ok (env : Env) (key v : GoString) (d : Int) (h : env key = some v)
    (hv : (Atoi v).2 = none) : getEnvAsInt env key d = (Atoi v).1 := by
  unfold getEnvAsInt
  rw [h]
  rcases hA : Atoi v with ⟨n, e⟩
  rw [hA] at hv
  simp only at hv
  subst hv
  simp only [hA]

theorem getEnvAsInt_err (env : Env) (key v : GoString) (d : Int) (h : env key = some v)
    (hv : (Atoi v).2 ≠ none) : getEnvAsInt env key d = d := by
  unfold getEnvAsInt
  rw [h]
  rcases hA : Atoi v with ⟨n, e⟩
  rw [hA] at hv
  cases e with
  | none => exact absurd rfl hv
  | some e => simp only [hA]

theorem getEnvAsInt_inRange (env : Env) (key : GoString) (d : Int) (hd : InIntRange d) :
    InIntRange (getEnvAsInt env key d) := by
  cases h : env key with
  | none => rw [getEnvAsInt_none env key d h]; exact hd
  | some v =>
    by_cases hv : (Atoi v).2 = none
    · rw [getEnvAsInt_ok env key v d h hv]
      exact (Atoi_none v hv).2
    · rw [getEnvAsInt_err env key v d h hv]; exact hd

/-! ## Lemmas on `%d` -/

theorem ldigits_lt (u : Nat) (h : u < 10) : ldigits u = Fin.ofNat (48 + u) := by
  interval_cases u <;> rfl

theorem decimalDigits_lt (u : Nat) (h : u < 10) : decimalDigits u = [Fin.ofNat (48 + u)] := by
  unfold decimalDigits
  by_cases h0 : u = 0
  · subst h0; rfl
  · rw [if_neg h0, Nat.digits_of_lt 10 u h0 h]
    rfl

theorem decimalDigits_step (u : Nat) (h : 10 ≤ u) :
    decimalDigits u = decimalDigits (u / 10) ++ [Fin.ofNat (48 + u % 10)] := by
  unfold decimalDigits
  have h0 : u ≠ 0 := by omega
  have h1 : u / 10 ≠ 0 := by omega
  rw [if_neg h0, if_neg h1]
  conv_lhs => rw [Nat.digits_def' (by norm_num : 1 < 10) (by omega : 0 < u)]
  simp

theorem fmtIntegerLoop_spec (room u : Nat) (buf : GoString) (h : u < 10 ^ (room + 1)) :
    ldigits (fmtIntegerLoop room u buf).1 :: (fmtIntegerLoop room u buf).2
      = decimalDigits u ++ buf := by
  induction room generalizing u buf with
  | zero =>
    have hu : u < 10 := by simpa using h
    simp only [fmtIntegerLoop]
    rw [ldigits_lt u hu, decimalDigits_lt u hu]
    rfl
  | succ room ih =>
    simp only [fmtIntegerLoop]
    by_cases hu : u ≥ 10
    · rw [if_pos hu]
      have hlt : u / 10 < 10 ^ (room + 1) := by
        rw [Nat.div_lt_iff_lt_mul (by norm_num)]
        rw [pow_succ] at h
        exact h
      rw [ih (u / 10) _ hlt, decimalDigits_step u hu]
      have e : 48 + u - u / 10 * 10 = 48 + u % 10 := by omega
      rw [e]
      simp
    · rw [if_neg hu]
      have hu2 : u < 10 := by omega
      simp only
      rw [ldigits_lt u hu2, decimalDigits_lt u hu2]
      rfl

theorem fmtInteger_eq_decimal (v : Int) (h : InIntRange v) : fmtInteger v = decimal v := by
  unfold InIntRange at h
  unfold fmtInteger decimal
  by_cases hneg : v < 0
  · have hu : (v % 18446744073709551616).toNat = (v + 18446744073709551616).toNat := by omega
    have hw : wrapInt64 (((v + 18446744073709551616).toNat : Nat) : Int) < 0 := by
      unfold wrapInt64; omega
    have hu2 : wrapUint64 (18446744073709551616 - (v + 18446744073709551616).toNat) = v.natAbs := by
      unfold wrapUint64; omega
    simp only [hu, hw, decide_True, if_true, hu2, hneg]
    have hb : v.natAbs < 10 ^ (67 + 1) := by
      have : v.natAbs < 18446744073709551616 := by omega
      have h2 : (18446744073709551616 : Nat) < 10 ^ (67 + 1) := by norm_num
      omega
    rw [fmtIntegerLoop_spec 67 _ [] hb]
    simp
  · have hu : (v % 18446744073709551616).toNat = v.natAbs := by omega
    have hw : ¬ wrapInt64 ((v.natAbs : Nat) : Int) < 0 := by
      unfold wrapInt64; omega
    simp only [hu, hw, decide_False, if_false, hneg, Bool.false_eq_true]
    have hb : v.natAbs < 10 ^ (67 + 1) := by
      have : v.natAbs < 18446744073709551616 := by omega
      have h2 : (18446744073709551616 : Nat) < 10 ^ (67 + 1) := by norm_num
      omega
    rw [fmtIntegerLoop_spec 67 _ [] hb]
    simp

/-! ## The configuration loader -/

/-- C3: for every environment, when `APP_PORT` is set to an integer string (an
optional sign and decimal digits) denoting an integer `n` of Go's `int`,
`LoadConfig` returns a `Config` whose `Server.Port` is `n`; when `APP_PORT` is
absent, or set to a string that is not an integer string, `Server.Port` is 8080.
`LoadConfig` returns a plain `Config`, so no error can be surfaced. -/
theorem LoadConfig_port_of_env (env : Env) :
    (∀ v n, env (bytes "APP_PORT") = some v → IsIntegerString v n → InIntRange n →
        (LoadConfig env).Server.Port = n) ∧
    (env (bytes "APP_PORT") = none → (LoadConfig env).Server.Port = 8080) ∧
    (∀ v, env (bytes "APP_PORT") = some v → (¬ ∃ n, IsIntegerString v n) →
        (LoadConfig env).Server.Port = 8080) := by
  refine ⟨?_, ?_, ?_⟩
  · intro v n hv hi hr
    have hA := Atoi_of_integerString v n hi hr
    show getEnvAsInt env (bytes "APP_PORT") 8080 = n
    rw [getEnvAsInt_ok env _ v 8080 hv (by rw [hA]), hA]
  · intro hv
    exact getEnvAsInt_none env _ 8080 hv
  · intro v hv hn
    show getEnvAsInt env (bytes "APP_PORT") 8080 = 8080
    apply getEnvAsInt_err env _ v 8080 hv
    intro hnone
    exact hn ⟨_, (Atoi_none v hnone).1⟩

/-- Witness for C3: `APP_PORT=3000` gives port 3000, `APP_PORT=+0080` gives port
80, no `APP_PORT` gives 8080 and `APP_PORT=80a` gives 8080. -/
theorem LoadConfig_port_of_env_witness :
    (LoadConfig (envOf [(bytes "APP_PORT", bytes "3000")])).Server.Port = 3000 ∧
    (LoadConfig (envOf [(bytes "APP_PORT", bytes "+0080")])).Server.Port = 80 ∧
    (LoadConfig (envOf [])).Server.Port = 8080 ∧
    (LoadConfig (envOf [(bytes "APP_PORT", bytes "80a")])).Server.Port = 8080 :=
  ⟨(LoadConfig_port_of_env (envOf [(bytes "APP_PORT", bytes "3000")])).1 (bytes "3000") 3000
      (by decide) ⟨bytes "3000", by decide, by decide, Or.inl ⟨rfl, by rw [show digitsValue (bytes "3000") = 3000 by decide]; rfl⟩⟩ (by decide),
   (LoadConfig_port_of_env (envOf [(bytes "APP_PORT", bytes "+0080")])).1 (bytes "+0080") 80
      (by decide) ⟨bytes "0080", by decide, by decide, Or.inr (Or.inl ⟨by decide, by rw [show digitsValue (bytes "0080") = 80 by decide]; rfl⟩)⟩
      (by decide),
   (LoadConfig_port_of_env (envOf [])).2.1 (by decide),
   (LoadConfig_port_of_env (envOf [(bytes "APP_PORT", bytes "80a")])).2.2 (bytes "80a")
      (by decide) (by
        rintro ⟨n, ds, _, hall, h⟩
        have h3 : ds = bytes "80a" ∨ bytes "80a" = 43 :: ds ∨ bytes "80a" = 45 :: ds := by
          rcases h with ⟨h, _⟩ | ⟨h, _⟩ | ⟨h, _⟩
          · exact Or.inl h.symm
          · exact Or.inr (Or.inl h)
          · exact Or.inr (Or.inr h)
        rcases h3 with h | h | h
        · subst h
          exact absurd (hall 97 (by decide)) (by decide)
        · exact absurd (List.cons.inj h).1 (by decide)
        · exact absurd (List.cons.inj h).1 (by decide))⟩

/-- C4: for every environment, when `APP_HOST` is set to a string `s` (the empty
string included) `LoadConfig` returns a `Config` whose `Server.Host` is exactly
`s`; when `APP_HOST` is absent, `Server.Host` is `0.0.0.0`. -/
theorem LoadConfig_host_of_env (env : Env) :
    (∀ s, env (bytes "APP_HOST") = some s → (LoadConfig env).Server.Host = s) ∧
    (env (bytes "APP_HOST") = none → (LoadConfig env).Server.Host = bytes "0.0.0.0") := by
  constructor
  · intro s hs
    show getEnvAsString env (bytes "APP_HOST") (bytes "0.0.0.0") = s
    unfold getEnvAsString
    rw [hs]
  · intro hs
    show getEnvAsString env (bytes "APP_HOST") (bytes "0.0.0.0") = bytes "0.0.0.0"
    unfold getEnvAsString
    rw [hs]

/-- Witness for C4: `APP_HOST=localhost`, `APP_HOST=` (set, empty) and no
`APP_HOST` at all. -/
theorem LoadConfig_host_of_env_witness :
    (LoadConfig (envOf [(bytes "APP_HOST", bytes "localhost")])).Server.Host = bytes "localhost" ∧
    (LoadConfig (envOf [(bytes "APP_HOST", [])])).Server.Host = [] ∧
    (LoadConfig (envOf [])).Server.Host = bytes "0.0.0.0" :=
  ⟨(LoadConfig_host_of_env (envOf [(bytes "APP_HOST", bytes "localhost")])).1 _ (by decide),
   (LoadConfig_host_of_env (envOf [(bytes "APP_HOST", [])])).1 _ (by decide),
   (LoadConfig_host_of_env (envOf [])).2 (by decide)⟩

/-- C7 fails as stated: with `APP_PORT=0` the port `LoadConfig` returns is 0,
which is outside 1..65535. -/
theorem LoadConfig_port_zero_not_valid :
    (LoadConfig (envOf [(bytes "APP_PORT", bytes "0")])).Server.Port = 0 ∧
    ¬ (1 ≤ (LoadConfig (envOf [(bytes "APP_PORT", bytes "0")])).Server.Port ∧
       (LoadConfig (envOf [(bytes "APP_PORT", bytes "0")])).Server.Port ≤ 65535) := by
  decide

/-- C7, amended: `LoadConfig` has no failure mode, it is a total function that
returns a `Config` for every environment, and the port of that `Config` fits
Go's `int`.  The port is not validated: it lies in 1..65535 exactly when
`APP_PORT` is not an integer string denoting an `int` outside that range. -/
theorem LoadConfig_port_unvalidated (env : Env) :
    InIntRange (LoadConfig env).Server.Port ∧
    ((1 ≤ (LoadConfig env).Server.Port ∧ (LoadConfig env).Server.Port ≤ 65535) ↔
      ¬ ∃ v n, env (bytes "APP_PORT") = some v ∧ IsIntegerString v n ∧ InIntRange n ∧
          ¬ (1 ≤ n ∧ n ≤ 65535)) := by
  refine ⟨getEnvAsInt_inRange env _ 8080 (by decide), ?_⟩
  show (1 ≤ getEnvAsInt env (bytes "APP_PORT") 8080 ∧
      getEnvAsInt env (bytes "APP_PORT") 8080 ≤ 65535) ↔ _
  cases h : env (bytes "APP_PORT") with
  | none =>
    rw [getEnvAsInt_none env _ 8080 h]
    simp
  | some v =>
    by_cases hv : (Atoi v).2 = none
    · rw [getEnvAsInt_ok env _ v 8080 h hv]
      obtain ⟨hi, hr⟩ := Atoi_none v hv
      constructor
      · rintro hp ⟨v2, n, hv2, hi2, hr2, hn⟩
        have e : v2 = v := (Option.some.inj hv2).symm
        subst e
        have hA := Atoi_of_integerString v2 n hi2 hr2
        rw [hA] at hp
        exact hn hp
      · intro hne
        by_contra hp
        exact hne ⟨v, _, rfl, hi, hr, hp⟩
    · rw [getEnvAsInt_err env _ v 8080 h hv]
      constructor
      · rintro _ ⟨v2, n, hv2, hi2, hr2, _⟩
        have e : v2 = v := (Option.some.inj hv2).symm
        subst e
        have hA := Atoi_of_integerString v2 n hi2 hr2
        rw [hA] at hv
        exact hv rfl
      · intro _
        decide

/-- C8: for every environment, the address `main` listens on is the host of the
loaded `Config`, then `:`, then the decimal rendering of its port; with neither
`APP_HOST` nor `APP_PORT` set the address is `0.0.0.0:8080`. -/
theorem serverAddr_of_LoadConfig (env : Env) :
    serverAddr (LoadConfig env)
      = (LoadConfig env).Server.Host ++ bytes ":" ++ decimal (LoadConfig env).Server.Port ∧
    (env (bytes "APP_HOST") = none → env (bytes "APP_PORT") = none →
      serverAddr (LoadConfig env) = bytes "0.0.0.0:8080") := by
  constructor
  · have hr : InIntRange (LoadConfig env).Server.Port :=
      getEnvAsInt_inRange env (bytes "APP_PORT") 8080 (by decide)
    unfold serverAddr
    rw [fmtInteger_eq_decimal _ hr]
  · intro hh hp
    have e : LoadConfig env = ⟨⟨8080, bytes "0.0.0.0"⟩⟩ := by
      unfold LoadConfig
      rw [getEnvAsInt_none env _ 8080 hp]
      unfold getEnvAsString
      rw [hh]
    rw [e]
    decide

/-- Witness for C8: the empty environment, whose address is `0.0.0.0:8080`. -/
theorem serverAddr_of_LoadConfig_witness :
    serverAddr (LoadConfig (envOf [])) = bytes "0.0.0.0:8080" :=
  (serverAddr_of_LoadConfig (envOf [])).2 (by decide) (by decide)

/-! ## The handlers -/

theorem Write_body (w : ResponseWriter) (d : GoString) :
    (ResponseWriter.Write w d).body = w.body ++ d := by
  unfold ResponseWriter.Write ResponseWriter.WriteHeader
  by_cases hw : w.wroteHeader = true <;> simp [hw]

theorem Write_status (w : ResponseWriter) (d : GoString)
    (hinv : w.wroteHeader = true → w.status = 200) :
    (ResponseWriter.Write w d).wroteHeader = true ∧ (ResponseWriter.Write w d).status = 200 := by
  unfold ResponseWriter.Write ResponseWriter.WriteHeader
  by_cases hw : w.wroteHeader = true
  · simp [hw, hinv hw]
  · simp [hw]

theorem foldl_Write_body (ws : List GoString) (w : ResponseWriter) :
    (ws.foldl ResponseWriter.Write w).body = w.body ++ ws.flatten := by
  induction ws generalizing w with
  | nil => simp
  | cons d t ih =>
    simp only [List.foldl_cons, List.flatten_cons]
    rw [ih, Write_body, List.append_assoc]

theorem foldl_Write_status (ws : List GoString) (w : ResponseWriter)
    (hinv : w.wroteHeader = true → w.status = 200) :
    (ws.foldl ResponseWriter.Write w).wroteHeader = true →
      (ws.foldl ResponseWriter.Write w).status = 200 := by
  induction ws generalizing w with
  | nil => simpa using hinv
  | cons d t ih =>
    simp only [List.foldl_cons]
    exact ih _ (fun _ => (Write_status w d hinv).2)

theorem finish_status_ok (w : ResponseWriter) (hinv : w.wroteHeader = true → w.status = 200) :
    (ResponseWriter.finish w).status = 200 := by
  unfold ResponseWriter.finish ResponseWriter.WriteHeader
  by_cases hw : w.wroteHeader = true
  · simp [hw, hinv hw]
  · simp [hw]

theorem finish_body (w : ResponseWriter) : (ResponseWriter.finish w).body = w.body := by
  unfold ResponseWriter.finish ResponseWriter.WriteHeader
  by_cases hw : w.wroteHeader = true <;> simp [hw]

/-- C1 fails as stated: the body `HelloHandler` writes for `GET /api/hello` is not
exactly the JSON object, a newline follows it. -/
theorem HelloHandler_body_not_exact :
    (ResponseWriter.finish (HelloHandler (NewHandlers (LoadConfig (envOf []))) ResponseWriter.new
        (GET (bytes "/api/hello")))).body
      ≠ bytes "\x7b\"message\":\"Hello, World!\",\"status\":\"success\"\x7d" := by
  decide

/-- C1, amended: for every request and every config, `HelloHandler` produces a
response with status 200, `Content-Type` header `application/json`, and a body
that is the bytes of the JSON object with `message` and `status` followed by
one newline, with nothing before the object and nothing after the newline. -/
theorem HelloHandler_response (h : Handlers) (r : Request) :
    (ResponseWriter.finish (HelloHandler h ResponseWriter.new r)).status = 200 ∧
    Header.Get (ResponseWriter.finish (HelloHandler h ResponseWriter.new r)).header
        (bytes "Content-Type") = bytes "application/json" ∧
    (ResponseWriter.finish (HelloHandler h ResponseWriter.new r)).body
      = bytes "\x7b\"message\":\"Hello, World!\",\"status\":\"success\"\x7d" ++ bytes "\n" := by
  simp only [HelloHandler]
  decide

/-- C2 fails as stated: the body `HealthHandler` writes for `GET /health` is not
exactly the JSON object, a newline follows it. -/
theorem HealthHandler_body_not_exact :
    (ResponseWriter.finish (HealthHandler (NewHandlers (LoadConfig (envOf []))) ResponseWriter.new
        (GET (bytes "/health")))).body
      ≠ bytes "\x7b\"status\":\"ok\",\"version\":\"1.0.0\"\x7d" := by
  decide

/-- C2, amended: for every request and every config, `HealthHandler` produces a
response with status 200, `Content-Type` header `application/json`, and a body
that is the bytes of the JSON object with `status` and `version` followed by
one newline, with nothing before the object and nothing after the newline. -/
theorem HealthHandler_response (h : Handlers) (r : Request) :
    (ResponseWriter.finish (HealthHandler h ResponseWriter.new r)).status = 200 ∧
    Header.Get (ResponseWriter.finish (HealthHandler h ResponseWriter.new r)).header
        (bytes "Content-Type") = bytes "application/json" ∧
    (ResponseWriter.finish (HealthHandler h ResponseWriter.new r)).body
      = bytes "\x7b\"status\":\"ok\",\"version\":\"1.0.0\"\x7d" ++ bytes "\n" := by
  simp only [HealthHandler]
  decide

/-- C5 fails as stated: when the renderer fails with `render failed` the status is
500 but the body is not the error text, a newline follows it. -/
theorem IndexHandler_error_body_not_exact :
    (ResponseWriter.finish (IndexHandler failingRenderer (NewHandlers (LoadConfig (envOf [])))
        ResponseWriter.new (GET (bytes "/")))).status = 500 ∧
    (ResponseWriter.finish (IndexHandler failingRenderer (NewHandlers (LoadConfig (envOf [])))
        ResponseWriter.new (GET (bytes "/")))).body ≠ bytes "render failed" := by
  decide

/-- C5, amended: for every request and config, if the renderer returns an error
`e` and has written nothing to the response, the response of `IndexHandler` has
status 500 and its body is the error text of `e` followed by a newline. -/
theorem IndexHandler_render_error (render : Renderer) (h : Handlers) (r : Request)
    (e : GoString) (herr : (render h.Config r).err = some e)
    (hnow : (render h.Config r).writes = []) :
    (ResponseWriter.finish (IndexHandler render h ResponseWriter.new r)).status = 500 ∧
    (ResponseWriter.finish (IndexHandler render h ResponseWriter.new r)).body
      = e ++ bytes "\n" := by
  simp only [IndexHandler, herr, hnow, List.foldl_nil]
  constructor
  · rfl
  · simp [Error, ResponseWriter.finish, ResponseWriter.Write, ResponseWriter.WriteHeader,
      ResponseWriter.SetHeader, ResponseWriter.DelHeader, ResponseWriter.new]

/-- Witness for C5: the renderer that fails at once with `render failed`. -/
theorem IndexHandler_render_error_witness :
    (ResponseWriter.finish (IndexHandler failingRenderer (NewHandlers (LoadConfig (envOf [])))
        ResponseWriter.new (GET (bytes "/")))).status = 500 ∧
    (ResponseWriter.finish (IndexHandler failingRenderer (NewHandlers (LoadConfig (envOf [])))
        ResponseWriter.new (GET (bytes "/")))).body = bytes "render failed" ++ bytes "\n" :=
  IndexHandler_render_error failingRenderer (NewHandlers (LoadConfig (envOf [])))
    (GET (bytes "/")) (bytes "render failed") rfl rfl

/-- C9: for every request and config, if the renderer succeeds, the response of
`IndexHandler` has status 200 and a non-empty body, which consists of what the
renderer wrote, in order, and nothing added by the handler. -/
theorem IndexHandler_render_ok (render : Renderer) (hpage : Renderer.WritesPage render)
    (h : Handlers) (r : Request) (hok : (render h.Config r).err = none) :
    (ResponseWriter.finish (IndexHandler render h ResponseWriter.new r)).status = 200 ∧
    (ResponseWriter.finish (IndexHandler render h ResponseWriter.new r)).body ≠ [] ∧
    (ResponseWriter.finish (IndexHandler render h ResponseWriter.new r)).body
      = (render h.Config r).writes.flatten := by
  have hb : (ResponseWriter.finish (IndexHandler render h ResponseWriter.new r)).body
      = (render h.Config r).writes.flatten := by
    simp only [IndexHandler, hok]
    rw [finish_body, foldl_Write_body]
    rfl
  refine ⟨?_, ?_, hb⟩
  · simp only [IndexHandler, hok]
    apply finish_status_ok
    apply foldl_Write_status
    intro hw
    exact absurd hw (by decide)
  · rw [hb]
    exact hpage h.Config r hok

/-- Witness for C9: a renderer that writes a page in two pieces. -/
theorem IndexHandler_render_ok_witness :
    (ResponseWriter.finish (IndexHandler pageRenderer (NewHandlers (LoadConfig (envOf [])))
        ResponseWriter.new (GET (bytes "/")))).status = 200 ∧
    (ResponseWriter.finish (IndexHandler pageRenderer (NewHandlers (LoadConfig (envOf [])))
        ResponseWriter.new (GET (bytes "/")))).body ≠ [] ∧
    (ResponseWriter.finish (IndexHandler pageRenderer (NewHandlers (LoadConfig (envOf [])))
        ResponseWriter.new (GET (bytes "/")))).body
      = (pageRenderer (NewHandlers (LoadConfig (envOf []))).Config (GET (bytes "/"))).writes.flatten :=
  IndexHandler_render_ok pageRenderer (fun _ _ _ => by simp only [pageRenderer]; decide)
    (NewHandlers (LoadConfig (envOf []))) (GET (bytes "/")) rfl

/-! ## The router -/

theorem backtrack_ge_one (out : GoString) (w : Nat) (hw : 1 ≤ w) : 1 ≤ backtrack out 1 w := by
  induction w with
  | zero => omega
  | succ w ih =>
    simp only [backtrack]
    split
    · rename_i hc
      exact ih (by omega)
    · omega

theorem head_take_of_pos (out : GoString) (k : Nat) (hk : 1 ≤ k) (hh : out.head? = some 47) :
    (out.take k).head? = some 47 := by
  cases out with
  | nil => simp at hh
  | cons a o =>
    cases k with
    | zero => omega
    | succ k => simpa using hh

theorem head_append (out x : GoString) (hh : out.head? = some 47) :
    (out ++ x).head? = some 47 := by
  cases out with
  | nil => simp at hh
  | cons a o => simpa using hh

theorem cleanLoop_rooted_head (n : Nat) (rest out : GoString) (hh : out.head? = some 47) :
    (cleanLoop n rest true out 1).head? = some 47 := by
  induction n generalizing rest out with
  | zero => simpa [cleanLoop] using hh
  | succ n ih =>
    cases rest with
    | nil => simpa [cleanLoop] using hh
    | cons c t =>
      simp only [cleanLoop]
      split_ifs
      all_goals first
        | contradiction
        | exact ih _ _ hh
        | exact ih _ _ (head_append _ _ (head_append _ _ hh))
        | exact ih _ _ (head_append _ _ hh)
        | exact ih _ _ (head_take_of_pos _ _ (backtrack_ge_one _ _ (by omega)) hh)

theorem Clean_rooted_head (path : GoString) (hp : path.head? = some 47) :
    (Clean path).head? = some 47 := by
  unfold Clean
  have hne : path ≠ [] := by
    intro h
    rw [h] at hp
    simp at hp
  rw [if_neg hne]
  simp only [hp, decide_True, if_true]
  have h1 := cleanLoop_rooted_head path.length path.tail [47] rfl
  split
  · rename_i he
    rw [he] at h1
    simp at h1
  · exact h1

theorem cleanPath_head (p : GoString) : (cleanPath p).head? = some 47 := by
  unfold cleanPath
  by_cases hp : p = []
  · rw [if_pos hp]
    rfl
  · rw [if_neg hp]
    have hq : (if p.head? ≠ some 47 then 47 :: p else p).head? = some 47 := by
      split
      · rfl
      · rename_i h
        exact not_not.mp h
    generalize (if p.head? ≠ some 47 then 47 :: p else p) = q at hq
    have hc := Clean_rooted_head q hq
    simp only
    split_ifs
    · exact hq
    · exact head_append _ _ hc
    · exact hc

theorem cleanLoop_nil (n : Nat) (rooted : Bool) (out : GoString) (dd : Nat) :
    cleanLoop n [] rooted out dd = out := by
  cases n <;> simp [cleanLoop]

theorem cleanLoop_slash (n : Nat) (t : GoString) (rooted : Bool) (out : GoString) (dd : Nat) :
    cleanLoop (n + 1) (47 :: t) rooted out dd = cleanLoop n t rooted out dd := by
  simp [cleanLoop]

theorem dropWhile_elem (e rest : GoString) (hs : (47 : Byte) ∉ e)
    (hrest : rest = [] ∨ rest.head? = some 47) :
    (e ++ rest).dropWhile (fun b => decide (b ≠ 47)) = rest := by
  induction e with
  | nil =>
    rcases hrest with h | h
    · subst h; rfl
    · cases rest with
      | nil => rfl
      | cons a t =>
        simp at h
        subst h
        simp [List.dropWhile]
  | cons c t ih =>
    have hc : c ≠ 47 := fun h => hs (by rw [h]; exact List.mem_cons_self _ _)
    have ht : (47 : Byte) ∉ t := fun h => hs (List.mem_cons_of_mem _ h)
    simp only [List.cons_append, List.dropWhile_cons]
    rw [if_pos (by simpa using hc)]
    exact ih ht

theorem takeWhile_elem (e rest : GoString) (hs : (47 : Byte) ∉ e)
    (hrest : rest = [] ∨ rest.head? = some 47) :
    (e ++ rest).takeWhile (fun b => decide (b ≠ 47)) = e := by
  induction e with
  | nil =>
    rcases hrest with h | h
    · subst h; rfl
    · cases rest with
      | nil => rfl
      | cons a t =>
        simp at h
        subst h
        simp [List.takeWhile]
  | cons c t ih =>
    have hc : c ≠ 47 := fun h => hs (by rw [h]; exact List.mem_cons_self _ _)
    have ht : (47 : Byte) ∉ t := fun h => hs (List.mem_cons_of_mem _ h)
    simp only [List.cons_append, List.takeWhile_cons]
    rw [if_pos (by simpa using hc)]
    rw [ih ht]

theorem cleanLoop_elem (n : Nat) (e rest : GoString) (rooted : Bool) (out : GoString) (dd : Nat)
    (he : e ≠ []) (hs : (47 : Byte) ∉ e) (hdot : e ≠ [46]) (hdd : e ≠ [46, 46])
    (hrest : rest = [] ∨ rest.head? = some 47) :
    cleanLoop (n + 1) (e ++ rest) rooted out dd
      = cleanLoop n rest rooted
          ((if (rooted = true ∧ out.length ≠ 1) ∨ (rooted = false ∧ out.length ≠ 0)
              then out ++ [47] else out) ++ e) dd := by
  have hdrop := dropWhile_elem e rest hs hrest
  have htake := takeWhile_elem e rest hs hrest
  cases e with
  | nil => exact absurd rfl he
  | cons c t =>
    have hc : c ≠ 47 := fun h => hs (by rw [h]; exact List.mem_cons_self _ _)
    have ht : (47 : Byte) ∉ t := fun h => hs (List.mem_cons_of_mem _ h)
    have h2 : ¬ (c = 46 ∧ (t ++ rest = [] ∨ (t ++ rest).head? = some 47)) := by
      rintro ⟨hc46, h⟩
      cases t with
      | nil => exact hdot (by rw [hc46])
      | cons a t2 =>
        rcases h with h | h
        · simp at h
        · simp at h
          exact ht (by rw [h]; exact List.mem_cons_self _ _)
    have h3 : ¬ (c = 46 ∧ (t ++ rest).head? = some 46 ∧
        ((t ++ rest).tail = [] ∨ (t ++ rest).tail.head? = some 47)) := by
      rintro ⟨hc46, hh, h⟩
      cases t with
      | nil =>
        rcases hrest with hr | hr
        · rw [hr] at hh
          simp at hh
        · simp only [List.nil_append] at hh
          rw [hr] at hh
          exact absurd (Option.some.inj hh) (by decide)
      | cons a t2 =>
        simp at hh
        cases t2 with
        | nil => exact hdd (by rw [hc46, hh])
        | cons b t3 =>
          rcases h with h | h
          · simp at h
          · simp at h
            apply ht
            rw [h]
            exact List.mem_cons_of_mem _ (List.mem_cons_self _ _)
    simp only [List.cons_append] at hdrop htake ⊢
    simp only [cleanLoop]
    rw [if_neg hc, if_neg h2, if_neg h3, hdrop, htake]

theorem HasPrefix_length (s pre : GoString) (h : HasPrefix s pre = true) :
    pre.length ≤ s.length := by
  unfold HasPrefix at h
  exact (List.isPrefixOf_iff_prefix.mp h).length_le

theorem StripPrefix_static (r : Request) (hp : HasPrefix r.Path (bytes "/static/") = true)
    (hraw : r.RawPath = [] ∨ HasPrefix r.RawPath (bytes "/static/") = true) :
    StripPrefix (bytes "/static/") r
      = some { r with Path := r.Path.drop 8, RawPath := r.RawPath.drop 8 } := by
  have hl := HasPrefix_length _ _ hp
  have h8 : (bytes "/static/").length = 8 := by decide
  rw [h8] at hl
  unfold StripPrefix TrimPrefix
  rw [if_pos hp, h8]
  rcases hraw with hr | hr
  · have hf : ¬ HasPrefix r.RawPath (bytes "/static/") = true := by
      rw [hr]
      decide
    rw [if_neg hf]
    have hc : (List.drop 8 r.Path).length < r.Path.length ∧
        (r.RawPath = [] ∨ r.RawPath.length < r.RawPath.length) := by
      refine ⟨?_, Or.inl hr⟩
      rw [List.length_drop]
      omega
    rw [if_pos hc]
    simp [hr]
  · have hl2 := HasPrefix_length _ _ hr
    rw [h8] at hl2
    rw [if_pos hr]
    have hc : (List.drop 8 r.Path).length < r.Path.length ∧
        (r.RawPath = [] ∨ (List.drop 8 r.RawPath).length < r.RawPath.length) := by
      refine ⟨?_, Or.inr ?_⟩
      · rw [List.length_drop]
        omega
      · rw [List.length_drop]
        omega
    rw [if_pos hc]

theorem append_slash_ne (p lit : GoString) (hl : lit.getLast? ≠ some 47) :
    p ++ bytes "/" ≠ lit := by
  intro h
  apply hl
  rw [← h, show bytes "/" = [(47 : Byte)] from rfl]
  simp

/-! ### Escaping -/

theorem escape_length_ge (s : GoString) : s.length ≤ (escape s).length := by
  induction s with
  | nil => simp [escape]
  | cons c t ih =>
    unfold escape at ih ⊢
    simp only [List.map_cons, List.flatten_cons, List.length_append, List.length_cons]
    have : 1 ≤ (escapeByte c).length := by
      unfold escapeByte
      split <;> simp
    omega

theorem upperhex_ne (k : Nat) (hk : k < 16) :
    upperhex k ≠ 47 ∧ upperhex k ≠ 0 ∧ upperhex k ≠ 37 := by
  interval_cases k <;> decide

theorem mem_escapeByte (c x : Byte) (hx : x ∈ escapeByte c) :
    (x = c ∧ shouldEscape c = false) ∨ x = 37 ∨
      (x ≠ 47 ∧ x ≠ 0 ∧ x ≠ 37 ∧ shouldEscape c = true) := by
  unfold escapeByte at hx
  have h1 := upperhex_ne (c.val / 16) (by have := c.isLt; omega)
  have h2 := upperhex_ne (c.val % 16) (by omega)
  by_cases hs : shouldEscape c = true
  · rw [if_pos hs] at hx
    simp only [List.mem_cons, List.mem_singleton, List.not_mem_nil, or_false] at hx
    rcases hx with e | e | e
    · right; left; exact e
    · right; right; rw [e]; exact ⟨h1.1, h1.2.1, h1.2.2, hs⟩
    · right; right; rw [e]; exact ⟨h2.1, h2.2.1, h2.2.2, hs⟩
  · rw [if_neg hs] at hx
    left
    exact ⟨List.mem_singleton.mp hx, by simpa using hs⟩

theorem mem_escape (s : GoString) (x : Byte) (hx : x ∈ escape s) :
    ∃ c ∈ s, x ∈ escapeByte c := by
  unfold escape at hx
  rw [List.mem_flatten] at hx
  obtain ⟨l, hl, hxl⟩ := hx
  rw [List.mem_map] at hl
  obtain ⟨c, hc, rfl⟩ := hl
  exact ⟨c, hc, hxl⟩

theorem escape_nil : escape [] = [] := rfl

theorem escape_cons (c : Byte) (t : GoString) : escape (c :: t) = escapeByte c ++ escape t := rfl

theorem escape_append (a b : GoString) : escape (a ++ b) = escape a ++ escape b := by
  unfold escape
  rw [List.map_append, List.flatten_append]

theorem escape_eq_of_no_percent (e l : GoString) (h : escape e = l) (hl : (37 : Byte) ∉ l) :
    e = l := by
  induction e generalizing l with
  | nil => rw [escape_nil] at h; exact h
  | cons c t ih =>
    rw [escape_cons] at h
    by_cases hs : shouldEscape c = true
    · exfalso
      apply hl
      rw [← h]
      simp [escapeByte, hs]
    · simp only [escapeByte, if_neg hs, List.singleton_append] at h
      cases l with
      | nil => simp at h
      | cons d l2 =>
        obtain ⟨h1, h2⟩ := List.cons.inj h
        rw [h1, ih l2 h2 (fun hm => hl (List.mem_cons_of_mem _ hm))]

theorem upperhex_unhex (k : Nat) (hk : k < 16) :
    ishex (upperhex k) = true ∧ unhex (upperhex k) = k := by
  interval_cases k <;> decide

theorem escapeByte_slash : escapeByte 47 = [47] := by
  decide

theorem escape_slash_cons (t : GoString) : escape (47 :: t) = 47 :: escape t := by
  rw [escape_cons, escapeByte_slash]
  rfl

theorem escape_eq_nil (s : GoString) (h : escape s = []) : s = [] := by
  have := escape_length_ge s
  rw [h] at this
  exact List.length_eq_zero.mp (by simpa using this)

theorem unescape_escape (s : GoString) : unescape (escape s) = some s := by
  induction s with
  | nil => rfl
  | cons c t ih =>
    rw [escape_cons]
    by_cases hs : shouldEscape c = true
    · have h1 := upperhex_unhex (c.val / 16) (by have := c.isLt; omega)
      have h2 := upperhex_unhex (c.val % 16) (by omega)
      have hc : (Fin.ofNat (c.val / 16 * 16 + c.val % 16) : Byte) = c := by
        rw [Nat.div_add_mod']
        apply Fin.ext
        show c.val % 256 = c.val
        exact Nat.mod_eq_of_lt c.isLt
      simp only [escapeByte, if_pos hs, List.cons_append, List.nil_append]
      rw [unescape.eq_def]
      simp only [if_true, h1.1, h2.1, and_self, h1.2, h2.2, ih, Option.map_some', hc]
    · have hc : c ≠ 37 := by
        intro e
        rw [e] at hs
        exact hs (by decide)
      simp only [escapeByte, if_neg hs, List.singleton_append]
      rw [unescape.eq_def]
      simp only [if_neg hc, ih, Option.map_some']

theorem pathUnescape_escape (s : GoString) : pathUnescape (escape s) = s := by
  unfold pathUnescape
  rw [unescape_escape]

theorem escapeByte_no_slash (c : Byte) (hc : c ≠ 47) : ∀ x ∈ escapeByte c, x ≠ 47 := by
  intro x hx
  rcases mem_escapeByte c x hx with ⟨e, _⟩ | e | ⟨e, _⟩
  · rw [e]; exact hc
  · rw [e]; decide
  · exact e

theorem takeWhile_escape (q : GoString) :
    (escape q).takeWhile (fun b => decide (b ≠ 47))
      = escape (q.takeWhile (fun b => decide (b ≠ 47))) := by
  induction q with
  | nil => rfl
  | cons c t ih =>
    by_cases hc : c = 47
    · subst hc
      rw [escape_slash_cons]
      simp [List.takeWhile, escape_nil]
    · rw [escape_cons, List.takeWhile_cons, if_pos (by simpa using hc), escape_cons,
        List.takeWhile_append_of_pos (fun x hx => by simpa using escapeByte_no_slash c hc x hx), ih]

theorem dropWhile_escape (q : GoString) :
    (escape q).dropWhile (fun b => decide (b ≠ 47))
      = escape (q.dropWhile (fun b => decide (b ≠ 47))) := by
  induction q with
  | nil => rfl
  | cons c t ih =>
    by_cases hc : c = 47
    · subst hc
      rw [escape_slash_cons]
      simp [List.dropWhile]
      rw [escape_slash_cons]
    · rw [escape_cons, List.dropWhile_cons, if_pos (by simpa using hc),
        List.dropWhile_append_of_pos (fun x hx => by simpa using escapeByte_no_slash c hc x hx), ih]

theorem escape_head (p : GoString) (h : (escape p).head? = some 47) : p.head? = some 47 := by
  cases p with
  | nil => simp [escape_nil] at h
  | cons c t =>
    by_cases hc : c = 47
    · rw [hc]; rfl
    · exfalso
      rw [escape_cons] at h
      have hne : escapeByte c ≠ [] := by
        unfold escapeByte
        split <;> simp
      obtain ⟨x, l, hl⟩ := List.exists_cons_of_ne_nil hne
      rw [hl] at h
      simp at h
      have := escapeByte_no_slash c hc x (by rw [hl]; exact List.mem_cons_self _ _)
      exact this h

/-! ### The routing tree -/

theorem matchPath_nil_node (k : Nat) (path : GoString) : matchPath k [] path = none := by
  cases k <;> simp [matchPath]

theorem firstSegment_rest_length (path : GoString) (h : path ≠ []) :
    (firstSegment path).2.length < path.length := by
  unfold firstSegment
  split
  · rename_i hp
    rw [hp]
    decide
  · simp only
    have h1 := (List.dropWhile_sublist (fun b => decide (b ≠ 47)) (l := path.drop 1)).length_le
    have h2 : (path.drop 1).length < path.length := by
      cases path with
      | nil => exact absurd rfl h
      | cons a t => simp
    omega

theorem matchPath_succ (k : Nat) (n : RoutingNode) (path : GoString) :
    matchPath (k + 1) n path =
      if n = [] then none
      else if path = [] then n.find? (fun e => decide (e.rest = [] ∧ e.pat.multi = false))
      else
        match matchPath k (findChild (firstSegment path).1 n) (firstSegment path).2 with
        | some e => some e
        | none => n.find? (fun e => decide (e.rest = [] ∧ e.pat.multi = true)) := by
  rw [matchPath]

theorem matchPath_fuel (k m : Nat) (n : RoutingNode) (path : GoString) (hk : path.length < k)
    (hm : path.length < m) : matchPath k n path = matchPath m n path := by
  induction k generalizing m n path with
  | zero => omega
  | succ k ih =>
    cases m with
    | zero => omega
    | succ m =>
      rw [matchPath_succ, matchPath_succ]
      by_cases hn : n = []
      · rw [if_pos hn, if_pos hn]
      · rw [if_neg hn, if_neg hn]
        by_cases hp : path = []
        · rw [if_pos hp, if_pos hp]
        · rw [if_neg hp, if_neg hp]
          have hl := firstSegment_rest_length path hp
          rw [ih m _ _ (by omega) (by omega)]

theorem matchPath_unfold (n : RoutingNode) (path : GoString) (hn : n ≠ []) (hp : path ≠ []) :
    matchPath (path.length + 1) n path =
      match matchPath ((firstSegment path).2.length + 1)
          (findChild (firstSegment path).1 n) (firstSegment path).2 with
      | some e => some e
      | none => n.find? (fun e => decide (e.rest = [] ∧ e.pat.multi = true)) := by
  have hl := firstSegment_rest_length path hp
  rw [matchPath_succ, if_neg hn, if_neg hp]
  rw [matchPath_fuel path.length ((firstSegment path).2.length + 1) _ _ hl (by omega)]

theorem matchPath_empty_path (k : Nat) (n : RoutingNode) (hn : n ≠ []) :
    matchPath (k + 1) n [] = n.find? (fun e => decide (e.rest = [] ∧ e.pat.multi = false)) := by
  rw [matchPath_succ, if_neg hn, if_pos rfl]

theorem findChild_leaves (seg : GoString) (n : RoutingNode) (h : ∀ e ∈ n, e.rest = []) :
    findChild seg n = [] := by
  unfold findChild
  rw [List.filterMap_eq_nil_iff]
  intro e he
  rw [h e he]

theorem matchPath_leaves (n : RoutingNode) (path : GoString) (hn : n ≠ [])
    (h : ∀ e ∈ n, e.rest = []) :
    matchPath (path.length + 1) n path =
      if path = [] then n.find? (fun e => decide (e.rest = [] ∧ e.pat.multi = false))
      else n.find? (fun e => decide (e.rest = [] ∧ e.pat.multi = true)) := by
  by_cases hp : path = []
  · rw [if_pos hp, hp]
    exact matchPath_empty_path _ n hn
  · rw [if_neg hp, matchPath_unfold n path hn hp, findChild_leaves _ n h, matchPath_nil_node]

theorem mainMux_tree : ServeMux.tree mainMux =
    [{ helloEntry with rest := [bytes "api", bytes "hello"] },
     { healthEntry with rest := [bytes "health"] },
     indexEntry,
     { staticEntry with rest := [bytes "static"] }] := by
  decide

theorem mainMux_tree_ne : ServeMux.tree mainMux ≠ [] := by
  decide

theorem mainMux_tree_multi :
    (ServeMux.tree mainMux).find? (fun e => decide (e.rest = [] ∧ e.pat.multi = true))
      = some indexEntry := by
  decide

theorem findChild_tree (seg : GoString) :
    findChild seg (ServeMux.tree mainMux) =
      if seg = bytes "api" then [{ helloEntry with rest := [bytes "hello"] }]
      else if seg = bytes "health" then [healthEntry]
      else if seg = bytes "static" then [staticEntry]
      else [] := by
  by_cases h1 : seg = bytes "api"
  · subst h1; decide
  · by_cases h2 : seg = bytes "health"
    · subst h2; decide
    · by_cases h3 : seg = bytes "static"
      · subst h3; decide
      · rw [if_neg h1, if_neg h2, if_neg h3, mainMux_tree]
        have e1 : ¬ bytes "api" = seg := fun h => h1 h.symm
        have e2 : ¬ bytes "health" = seg := fun h => h2 h.symm
        have e3 : ¬ bytes "static" = seg := fun h => h3 h.symm
        simp [findChild, indexEntry, e1, e2, e3]

theorem findChild_api (seg : GoString) :
    findChild seg [{ helloEntry with rest := [bytes "hello"] }] =
      if seg = bytes "hello" then [helloEntry] else [] := by
  by_cases h1 : seg = bytes "hello"
  · subst h1; decide
  · rw [if_neg h1]
    have e1 : ¬ bytes "hello" = seg := fun h => h1 h.symm
    simp [findChild, e1]

theorem dropWhile_head (l : GoString) :
    l.dropWhile (fun b => decide (b ≠ 47)) = [] ∨
      ∃ t, l.dropWhile (fun b => decide (b ≠ 47)) = 47 :: t := by
  induction l with
  | nil => left; rfl
  | cons a t ih =>
    by_cases ha : a = 47
    · right
      subst ha
      exact ⟨t, by simp [List.dropWhile]⟩
    · rw [List.dropWhile_cons, if_pos (by simpa using ha)]
      exact ih

theorem firstSegment_escape (t : GoString) (ht : t ≠ []) :
    firstSegment (47 :: escape t)
      = (t.takeWhile (fun b => decide (b ≠ 47)), escape (t.dropWhile (fun b => decide (b ≠ 47)))) := by
  unfold firstSegment
  have hne : (47 : Byte) :: escape t ≠ bytes "/" := by
    intro h
    have h2 : (47 : Byte) :: escape t = [47] := h
    exact ht (escape_eq_nil t (List.cons.inj h2).2)
  rw [if_neg hne]
  simp only [List.drop_succ_cons, List.drop_zero]
  rw [takeWhile_escape, dropWhile_escape, pathUnescape_escape]

/-- The segments of a path below a node that holds only `helloEntry`. -/
theorem matchPath_hello (path : GoString) :
    matchPath (path.length + 1) [helloEntry] path = if path = [] then some helloEntry else none := by
  rw [matchPath_leaves [helloEntry] path (by simp) (by simp [helloEntry])]
  by_cases hp : path = []
  · rw [if_pos hp, if_pos hp]; decide
  · rw [if_neg hp, if_neg hp]; decide

theorem matchPath_health (path : GoString) :
    matchPath (path.length + 1) [healthEntry] path
      = if path = [] then some healthEntry else none := by
  rw [matchPath_leaves [healthEntry] path (by simp) (by simp [healthEntry])]
  by_cases hp : path = []
  · rw [if_pos hp, if_pos hp]; decide
  · rw [if_neg hp, if_neg hp]; decide

theorem matchPath_static (path : GoString) :
    matchPath (path.length + 1) [staticEntry] path
      = if path = [] then none else some staticEntry := by
  rw [matchPath_leaves [staticEntry] path (by simp) (by simp [staticEntry])]
  by_cases hp : path = []
  · rw [if_pos hp, if_pos hp]; decide
  · rw [if_neg hp, if_neg hp]; decide

theorem matchPath_api (path : GoString) (hhead : path = [] ∨ ∃ t, path = 47 :: t) :
    matchPath ((escape path).length + 1) [{ helloEntry with rest := [bytes "hello"] }]
        (escape path)
      = if path = bytes "/hello" then some helloEntry else none := by
  rcases hhead with hp | ⟨t, ht⟩
  · subst hp
    decide
  · subst ht
    by_cases htn : t = []
    · subst htn
      decide
    · rw [escape_slash_cons, matchPath_unfold _ _ (by simp) (by simp), firstSegment_escape t htn]
      simp only
      rw [findChild_api]
      have hsplit := List.takeWhile_append_dropWhile (fun b => decide (b ≠ 47)) t
      by_cases e2 : t.takeWhile (fun b => decide (b ≠ 47)) = bytes "hello"
      · rw [if_pos e2, matchPath_hello]
        by_cases e3 : t.dropWhile (fun b => decide (b ≠ 47)) = []
        · have e4 : escape (t.dropWhile (fun b => decide (b ≠ 47))) = [] := by
            rw [e3]
            rfl
          rw [if_pos e4]
          have ht : t = bytes "hello" := by
            rw [← hsplit, e2, e3]
            rfl
          subst ht
          decide
        · rw [if_neg (fun h => e3 (escape_eq_nil _ h))]
          have hne : (47 : Byte) :: t ≠ bytes "/hello" := by
            intro h
            have h2 : t = bytes "hello" := (List.cons.inj h).2
            rw [h2] at e3
            exact e3 (by decide)
          rw [if_neg hne]
          decide
      · rw [if_neg e2, matchPath_nil_node]
        have hne : (47 : Byte) :: t ≠ bytes "/hello" := by
          intro h
          have h2 : t = bytes "hello" := (List.cons.inj h).2
          rw [h2] at e2
          exact e2 (by decide)
        rw [if_neg hne]
        decide

/-- A rooted path that is none of `/api/hello`, `/health` and does not begin with
`/static/` matches the pattern `/`, whatever bytes of it are escaped. -/
theorem matchTree_other (p : GoString) (hhead : p.head? = some 47)
    (n1 : p ≠ bytes "/api/hello") (n2 : p ≠ bytes "/health")
    (n3 : HasPrefix p (bytes "/static/") = false) :
    ServeMux.matchTree mainMux (escape p) = some indexEntry := by
  cases p with
  | nil => simp at hhead
  | cons a q =>
    simp at hhead
    subst hhead
    by_cases hq : q = []
    · subst hq
      decide
    · have hsplit := List.takeWhile_append_dropWhile (fun b => decide (b ≠ 47)) q
      have hrest := dropWhile_head q
      unfold ServeMux.matchTree
      rw [escape_slash_cons, matchPath_unfold _ _ mainMux_tree_ne (by simp),
        firstSegment_escape q hq]
      simp only
      rw [findChild_tree, mainMux_tree_multi]
      generalize hs1 : q.takeWhile (fun b => decide (b ≠ 47)) = s1 at hsplit
      generalize hr1 : q.dropWhile (fun b => decide (b ≠ 47)) = rest1 at hsplit hrest
      by_cases e1 : s1 = bytes "api"
      · rw [if_pos e1, matchPath_api rest1 hrest]
        have hne : rest1 ≠ bytes "/hello" := by
          intro h
          apply n1
          rw [← hsplit, e1, h]
          rfl
        rw [if_neg hne]
      · rw [if_neg e1]
        by_cases e2 : s1 = bytes "health"
        · rw [if_pos e2, matchPath_health]
          have hne : escape rest1 ≠ [] := by
            intro h
            apply n2
            rw [← hsplit, e2, escape_eq_nil _ h]
            rfl
          rw [if_neg hne]
        · rw [if_neg e2]
          by_cases e3 : s1 = bytes "static"
          · rw [if_pos e3, matchPath_static]
            have hnil : rest1 = [] := by
              rcases hrest with h | ⟨t, ht⟩
              · exact h
              · exfalso
                have : HasPrefix (47 :: q) (bytes "/static/") = true := by
                  rw [← hsplit, e3, ht]
                  show HasPrefix (bytes "/static/" ++ t) (bytes "/static/") = true
                  unfold HasPrefix
                  rw [List.isPrefixOf_iff_prefix]
                  exact List.prefix_append _ _
                rw [this] at n3
                exact absurd n3 (by decide)
            have hnil2 : escape rest1 = [] := by
              rw [hnil]
              rfl
            rw [if_pos hnil2]
          · rw [if_neg e3, matchPath_nil_node]

theorem matchTree_static (x : GoString) :
    ServeMux.matchTree mainMux (bytes "/static/" ++ x) = some staticEntry := by
  have e1 : bytes "/static/" ++ x = 47 :: (bytes "static" ++ 47 :: x) := rfl
  have hfs : firstSegment (47 :: (bytes "static" ++ 47 :: x)) = (bytes "static", 47 :: x) := by
    unfold firstSegment
    have hne : (47 : Byte) :: (bytes "static" ++ 47 :: x) ≠ bytes "/" := by
      intro h
      have := congrArg List.length h
      simp [bytes] at this
    rw [if_neg hne]
    simp only [List.drop_succ_cons, List.drop_zero]
    rw [takeWhile_elem (bytes "static") (47 :: x) (by decide) (Or.inr rfl),
      dropWhile_elem (bytes "static") (47 :: x) (by decide) (Or.inr rfl)]
    rfl
  unfold ServeMux.matchTree
  rw [e1, matchPath_unfold _ _ mainMux_tree_ne (by simp), hfs]
  simp only
  rw [findChild_tree, if_neg (by decide), if_neg (by decide), if_pos rfl, matchPath_static,
    if_neg (by simp)]

theorem exactMatch_index (path : GoString) :
    exactMatch (some indexEntry) path =
      if path ≠ [] ∧ path.getLast? ≠ some 47 then false else decide (1 = path.count 47) := by
  have hm : indexEntry.pat.multi = true := by decide
  have hs : indexEntry.pat.segments.length + 1 = 1 := by decide
  unfold exactMatch
  simp only [hm, hs, Bool.true_eq_false, if_false]

theorem exactMatch_static (path : GoString) :
    exactMatch (some staticEntry) path =
      if path ≠ [] ∧ path.getLast? ≠ some 47 then false else decide (2 = path.count 47) := by
  have hm : staticEntry.pat.multi = true := by decide
  have hs : staticEntry.pat.segments.length + 1 = 2 := by decide
  unfold exactMatch
  simp only [hm, hs, Bool.true_eq_false, if_false]

theorem slash_eq : bytes "/" = [(47 : Byte)] := rfl

theorem matchOrRedirect_static (x : GoString) (u : Option GoString) :
    ServeMux.matchOrRedirect mainMux (bytes "/static/" ++ x) u = (some staticEntry, none) := by
  unfold ServeMux.matchOrRedirect
  cases u with
  | none => simp only [matchTree_static]
  | some upath =>
    simp only [List.append_assoc, matchTree_static]
    have hx : exactMatch (some staticEntry) (bytes "/static/" ++ (x ++ bytes "/")) = false := by
      rw [exactMatch_static]
      have h1 : ¬ (bytes "/static/" ++ (x ++ bytes "/") ≠ [] ∧
          (bytes "/static/" ++ (x ++ bytes "/")).getLast? ≠ some 47) := by
        intro h
        apply h.2
        rw [← List.append_assoc, slash_eq, List.getLast?_concat]
      rw [if_neg h1]
      have hc : (bytes "/static/" ++ (x ++ bytes "/")).count 47 = 3 + x.count 47 := by
        rw [List.count_append, List.count_append, slash_eq]
        have : (bytes "/static/").count 47 = 2 := by decide
        rw [this]
        simp
        omega
      rw [hc]
      simp
      omega
    rw [hx]
    simp

theorem HasPrefix_append_slash (p : GoString)
    (h : HasPrefix (p ++ bytes "/") (bytes "/static/") = true) :
    p = bytes "/static" ∨ HasPrefix p (bytes "/static/") = true := by
  unfold HasPrefix at h ⊢
  rw [List.isPrefixOf_iff_prefix] at h
  rw [List.isPrefixOf_iff_prefix]
  rw [slash_eq, List.prefix_concat_iff] at h
  rcases h with h | h
  · left
    have h2 : bytes "/static" ++ [47] = p ++ [47] := h
    exact (List.append_cancel_right h2).symm
  · right
    exact h

theorem count_slash_escape (p : GoString) (hhead : p.head? = some 47) :
    1 ≤ (escape p).count 47 := by
  cases p with
  | nil => simp at hhead
  | cons a t =>
    simp at hhead
    subst hhead
    rw [escape_slash_cons]
    simp

theorem escape_append_slash (p : GoString) : escape p ++ bytes "/" = escape (p ++ bytes "/") := by
  rw [escape_append]
  rfl

theorem matchOrRedirect_other (p : GoString) (u : Option GoString) (hhead : p.head? = some 47)
    (n1 : p ≠ bytes "/api/hello") (n2 : p ≠ bytes "/health")
    (n3 : HasPrefix p (bytes "/static/") = false) (n4 : p ≠ bytes "/static") :
    ServeMux.matchOrRedirect mainMux (escape p) u = (some indexEntry, none) := by
  have hidx := matchTree_other p hhead n1 n2 n3
  unfold ServeMux.matchOrRedirect
  cases u with
  | none => simp only [hidx]
  | some upath =>
    have h2 : ServeMux.matchTree mainMux (escape p ++ bytes "/") = some indexEntry := by
      rw [escape_append_slash]
      apply matchTree_other
      · exact head_append _ _ hhead
      · exact append_slash_ne p _ (by decide)
      · exact append_slash_ne p _ (by decide)
      · cases h : HasPrefix (p ++ bytes "/") (bytes "/static/") with
        | false => rfl
        | true =>
          rcases HasPrefix_append_slash p h with e | e
          · exact absurd e n4
          · rw [e] at n3
            exact absurd n3 (by decide)
    have hx : exactMatch (some indexEntry) (escape p ++ bytes "/") = false := by
      rw [exactMatch_index]
      have h1 : ¬ (escape p ++ bytes "/" ≠ [] ∧ (escape p ++ bytes "/").getLast? ≠ some 47) := by
        intro h
        apply h.2
        rw [slash_eq, List.getLast?_concat]
      rw [if_neg h1, List.count_append, slash_eq]
      have := count_slash_escape p hhead
      simp
      omega
    simp only [hidx, h2, hx]
    simp

theorem matchOrRedirect_tree (mux : ServeMux) (p : GoString) (u : Option GoString)
    (h : (ServeMux.matchOrRedirect mux p u).2 = none) :
    (ServeMux.matchOrRedirect mux p u).1 = ServeMux.matchTree mux p := by
  unfold ServeMux.matchOrRedirect at h ⊢
  cases u with
  | none => rfl
  | some upath =>
    simp only at h ⊢
    split
    · rename_i hc
      rw [if_pos hc] at h
      split
      · rename_i hc2
        rw [if_pos hc2] at h
        simp at h
      · rfl
    · rfl

theorem Handler_of_clean_escaped (mux : ServeMux) (r : Request)
    (hclean : cleanPath (EscapedPath r) = EscapedPath r) :
    ServeMux.Handler mux r =
      match (ServeMux.matchOrRedirect mux (EscapedPath r) (some r.Path)).2 with
      | some u => Dispatch.redirect u
      | none => Dispatch.ofMatch (ServeMux.matchTree mux (EscapedPath r)) := by
  unfold ServeMux.Handler
  simp only [hclean, ne_eq, not_true_eq_false, if_false]
  cases h : (ServeMux.matchOrRedirect mux (EscapedPath r) (some r.Path)).2 with
  | some u => simp
  | none =>
    have h1 := matchOrRedirect_tree mux (EscapedPath r) (some r.Path) h
    have h2 : (ServeMux.matchOrRedirect mux (EscapedPath r) none).1
        = ServeMux.matchTree mux (EscapedPath r) := rfl
    simp only [h1, h2, ite_self]

theorem Handler_static_escaped (r : Request) (x : GoString)
    (he : EscapedPath r = bytes "/static/" ++ x)
    (hclean : cleanPath (EscapedPath r) = EscapedPath r) :
    ServeMux.Handler mainMux r = Dispatch.handler Route.StaticFiles := by
  rw [Handler_of_clean_escaped mainMux r hclean, he, matchOrRedirect_static, matchTree_static]
  rfl

theorem HasPrefix_split (p pre : GoString) (h : HasPrefix p pre = true) :
    p = pre ++ p.drop pre.length := by
  unfold HasPrefix at h
  rw [List.isPrefixOf_iff_prefix] at h
  obtain ⟨t, rfl⟩ := h
  simp

theorem EscapedPath_of_no_raw (r : Request) (hraw : r.RawPath = [])
    (hclean : cleanPath (EscapedPath r) = EscapedPath r) : EscapedPath r = escape r.Path := by
  have h1 : ¬ (r.RawPath ≠ [] ∧ validEncoded r.RawPath = true ∧
      unescape r.RawPath = some r.Path) := fun h => h.1 hraw
  by_cases hs : r.Path = bytes "*"
  · exfalso
    have he : EscapedPath r = bytes "*" := by
      unfold EscapedPath
      rw [if_neg h1, if_pos hs]
    rw [he] at hclean
    exact absurd hclean (by decide)
  · unfold EscapedPath
    rw [if_neg h1, if_neg hs]

theorem StripPrefix_no_raw (r : Request) (hp : HasPrefix r.Path (bytes "/static/") = true)
    (hraw : r.RawPath = []) :
    StripPrefix (bytes "/static/") r = some { r with Path := r.Path.drop 8 } := by
  rw [StripPrefix_static r hp (Or.inl hraw), hraw]
  rfl

/-- C6 fails as stated: the path `/static` is none of `/api/hello`, `/health` or a
path beginning with `/static/`, yet the mux does not hand it to `IndexHandler`:
it answers with a redirect to `/static/`. -/
theorem mainMux_static_without_slash :
    bytes "/static" ≠ bytes "/api/hello" ∧ bytes "/static" ≠ bytes "/health" ∧
    HasPrefix (bytes "/static") (bytes "/static/") = false ∧
    ServeMux.Handler mainMux (GET (bytes "/static")) = Dispatch.redirect (bytes "/static/") ∧
    ServeMux.Handler mainMux (GET (bytes "/static")) ≠ Dispatch.handler Route.IndexHandler := by
  decide

/-- C6, amended: for every request whose URL has no raw path (its path `p` is
sent in the default encoding) and whose escaped path is in canonical form (it is
its own `cleanPath`: rooted, without empty, `.` or `..` elements), the mux built
by `RegisterRoutes` plus the static registration in `main` dispatches `p` equal
to `/api/hello` to `HelloHandler`; `p` equal to `/health` to `HealthHandler`;
`p` beginning with `/static/` to the static file handler, which sees `p` with
the `/static/` prefix stripped; `p` equal to `/static` to a redirect to
`/static/`; and every other `p`, `/` included, to `IndexHandler`. -/
theorem mainMux_dispatch (r : Request) (hraw : r.RawPath = [])
    (hclean : cleanPath (EscapedPath r) = EscapedPath r) :
    (r.Path = bytes "/api/hello" →
      ServeMux.Handler mainMux r = Dispatch.handler Route.HelloHandler) ∧
    (r.Path = bytes "/health" →
      ServeMux.Handler mainMux r = Dispatch.handler Route.HealthHandler) ∧
    (HasPrefix r.Path (bytes "/static/") = true →
      ServeMux.Handler mainMux r = Dispatch.handler Route.StaticFiles ∧
      StripPrefix (bytes "/static/") r = some { r with Path := r.Path.drop 8 }) ∧
    (r.Path = bytes "/static" →
      ServeMux.Handler mainMux r = Dispatch.redirect (bytes "/static/")) ∧
    (r.Path ≠ bytes "/api/hello" → r.Path ≠ bytes "/health" → r.Path ≠ bytes "/static" →
      HasPrefix r.Path (bytes "/static/") = false →
      ServeMux.Handler mainMux r = Dispatch.handler Route.IndexHandler) := by
  have hesc := EscapedPath_of_no_raw r hraw hclean
  have hhead : r.Path.head? = some 47 := by
    apply escape_head
    rw [← hesc, ← hclean]
    exact cleanPath_head _
  have hH := Handler_of_clean_escaped mainMux r hclean
  refine ⟨?_, ?_, ?_, ?_, ?_⟩
  · intro h
    rw [hH, hesc, h]
    decide
  · intro h
    rw [hH, hesc, h]
    decide
  · intro h
    refine ⟨?_, StripPrefix_no_raw r h hraw⟩
    apply Handler_static_escaped r (escape (r.Path.drop (bytes "/static/").length)) _ hclean
    rw [hesc]
    nth_rewrite 1 [HasPrefix_split _ _ h]
    rw [escape_append]
    rfl
  · intro h
    rw [hH, hesc, h]
    decide
  · intro n1 n2 n4 n3
    rw [hH, hesc, matchOrRedirect_other r.Path _ hhead n1 n2 n3 n4,
      matchTree_other r.Path hhead n1 n2 n3]
    rfl

/-- Witness for C6: `GET /about us`, whose escaped path `/about%20us` is
canonical, goes to `IndexHandler`, and `GET /static/css/app.css` goes to the
static file handler, which sees `css/app.css`. -/
theorem mainMux_dispatch_witness :
    ServeMux.Handler mainMux (GET (bytes "/about us")) = Dispatch.handler Route.IndexHandler ∧
    (ServeMux.Handler mainMux (GET (bytes "/static/css/app.css"))
        = Dispatch.handler Route.StaticFiles ∧
      StripPrefix (bytes "/static/") (GET (bytes "/static/css/app.css"))
        = some (GET (bytes "css/app.css"))) :=
  ⟨(mainMux_dispatch (GET (bytes "/about us")) (by decide) (by decide)).2.2.2.2
      (by decide) (by decide) (by decide) (by decide),
   (mainMux_dispatch (GET (bytes "/static/css/app.css")) (by decide) (by decide)).2.2.1
      (by decide)⟩

/-! ## The static files -/

theorem cleanLoop_last (n : Nat) (f : GoString) (hf : IsFileName f) (rooted : Bool)
    (out : GoString) (dd : Nat) :
    cleanLoop (n + 1) f rooted out dd
      = (if (rooted = true ∧ out.length ≠ 1) ∨ (rooted = false ∧ out.length ≠ 0)
          then out ++ [47] else out) ++ f := by
  obtain ⟨hne, hs, _, hdot, hdd⟩ := hf
  have h := cleanLoop_elem n f [] rooted out dd hne hs hdot hdd (Or.inl rfl)
  rw [List.append_nil, cleanLoop_nil] at h
  exact h

theorem fileName_length (f : GoString) (hf : IsFileName f) : 1 ≤ f.length := by
  cases f with
  | nil => exact absurd rfl hf.1
  | cons a t => simp

theorem cleanLoop_path (elems : List GoString) (hp : IsRelPath elems) (n : Nat)
    (hn : (joinPath elems).length ≤ n) (rooted : Bool) (out : GoString) (dd : Nat)
    (hroot : rooted = true → 1 ≤ out.length) :
    cleanLoop n (joinPath elems) rooted out dd
      = (if (rooted = true ∧ out.length ≠ 1) ∨ (rooted = false ∧ out.length ≠ 0)
          then out ++ [47] else out) ++ joinPath elems := by
  induction elems generalizing n out with
  | nil => exact absurd rfl hp.1
  | cons e rest ih =>
    have he : IsFileName e := hp.2 e (List.mem_cons_self _ _)
    have hlen := fileName_length e he
    cases rest with
    | nil =>
      simp only [joinPath] at hn ⊢
      obtain ⟨m, rfl⟩ : ∃ m, n = m + 1 := ⟨n - 1, by omega⟩
      exact cleanLoop_last m e he rooted out dd
    | cons e2 r =>
      simp only [joinPath, List.length_append, List.length_cons] at hn ⊢
      obtain ⟨m, rfl⟩ : ∃ m, n = m + 2 := ⟨n - 2, by omega⟩
      have hp2 : IsRelPath (e2 :: r) :=
        ⟨by simp, fun x hx => hp.2 x (List.mem_cons_of_mem _ hx)⟩
      rw [cleanLoop_elem (m + 1) e (47 :: joinPath (e2 :: r)) rooted out dd he.1 he.2.1
        he.2.2.2.1 he.2.2.2.2 (Or.inr rfl)]
      rw [cleanLoop_slash]
      have hout : 1 ≤ ((if (rooted = true ∧ out.length ≠ 1) ∨ (rooted = false ∧ out.length ≠ 0)
          then out ++ [47] else out) ++ e).length := by
        rw [List.length_append]
        omega
      rw [ih hp2 m (by omega) _ (fun _ => hout)]
      have hc : (rooted = true ∧ ((if (rooted = true ∧ out.length ≠ 1) ∨
            (rooted = false ∧ out.length ≠ 0) then out ++ [47] else out) ++ e).length ≠ 1) ∨
          (rooted = false ∧ ((if (rooted = true ∧ out.length ≠ 1) ∨
            (rooted = false ∧ out.length ≠ 0) then out ++ [47] else out) ++ e).length ≠ 0) := by
        cases rooted with
        | true =>
          left
          refine ⟨rfl, ?_⟩
          have h1 := hroot rfl
          rw [List.length_append]
          split <;> simp <;> omega
        | false =>
          right
          exact ⟨rfl, by omega⟩
      rw [if_pos hc]
      simp

theorem joinPath_ne_nil (elems : List GoString) (hp : IsRelPath elems) : joinPath elems ≠ [] := by
  cases elems with
  | nil => exact absurd rfl hp.1
  | cons e rest =>
    have hlen := fileName_length e (hp.2 e (List.mem_cons_self _ _))
    cases rest with
    | nil =>
      simp only [joinPath]
      intro h
      rw [h] at hlen
      simp at hlen
    | cons e2 r =>
      simp only [joinPath]
      intro h
      have := congrArg List.length h
      simp at this

theorem joinPath_no_nul (elems : List GoString) (hp : IsRelPath elems) :
    (0 : Byte) ∉ joinPath elems := by
  induction elems with
  | nil => exact absurd rfl hp.1
  | cons e rest ih =>
    have he : IsFileName e := hp.2 e (List.mem_cons_self _ _)
    cases rest with
    | nil => simpa [joinPath] using he.2.2.1
    | cons e2 r =>
      have hp2 : IsRelPath (e2 :: r) :=
        ⟨by simp, fun x hx => hp.2 x (List.mem_cons_of_mem _ hx)⟩
      simp only [joinPath, List.mem_append, List.mem_cons, not_or]
      exact ⟨he.2.2.1, by decide, ih hp2⟩

theorem joinPath_getLast (elems : List GoString) (hp : IsRelPath elems) :
    (joinPath elems).getLast? ≠ some 47 := by
  induction elems with
  | nil => exact absurd rfl hp.1
  | cons e rest ih =>
    have he : IsFileName e := hp.2 e (List.mem_cons_self _ _)
    cases rest with
    | nil =>
      simp only [joinPath]
      intro h
      exact he.2.1 (List.mem_of_getLast?_eq_some h)
    | cons e2 r =>
      have hp2 : IsRelPath (e2 :: r) :=
        ⟨by simp, fun x hx => hp.2 x (List.mem_cons_of_mem _ hx)⟩
      simp only [joinPath]
      have e1 : e ++ 47 :: joinPath (e2 :: r) = (e ++ [47]) ++ joinPath (e2 :: r) := by simp
      rw [e1, List.getLast?_append_of_ne_nil _ (joinPath_ne_nil _ hp2)]
      exact ih hp2

theorem getLast_path_ne_slash (pre : GoString) (elems : List GoString) (hp : IsRelPath elems) :
    (pre ++ joinPath elems).getLast? ≠ some 47 := by
  rw [List.getLast?_append_of_ne_nil _ (joinPath_ne_nil _ hp)]
  exact joinPath_getLast elems hp

theorem path_not_rooted (elems : List GoString) (hp : IsRelPath elems) :
    HasPrefix (joinPath elems) (bytes "/") = false := by
  cases elems with
  | nil => exact absurd rfl hp.1
  | cons e rest =>
    have he : IsFileName e := hp.2 e (List.mem_cons_self _ _)
    cases e with
    | nil => exact absurd rfl he.1
    | cons a t =>
      have ha : a ≠ 47 := fun h => he.2.1 (by rw [h]; exact List.mem_cons_self _ _)
      have hj : ∃ u, joinPath ((a :: t) :: rest) = a :: u := by
        cases rest with
        | nil => exact ⟨t, rfl⟩
        | cons e2 r => exact ⟨t ++ 47 :: joinPath (e2 :: r), rfl⟩
      obtain ⟨u, hu⟩ := hj
      rw [hu]
      show HasPrefix (a :: u) [47] = false
      simp only [HasPrefix, List.isPrefixOf]
      simp
      exact fun h => ha h.symm

theorem path_not_index (elems : List GoString) (hp : IsRelPath elems)
    (hidx : elems.getLast? ≠ some (bytes "index.html")) (t : GoString) :
    t ++ bytes "/index.html" ≠ 47 :: joinPath elems := by
  have e2 : bytes "/index.html" = 47 :: bytes "index.html" := rfl
  have hnoslash : (47 : Byte) ∉ bytes "index.html" := by decide
  induction elems generalizing t with
  | nil => exact absurd rfl hp.1
  | cons e rest ih =>
    have he : IsFileName e := hp.2 e (List.mem_cons_self _ _)
    cases rest with
    | nil =>
      simp only [joinPath]
      intro ht
      cases t with
      | nil =>
        rw [List.nil_append, e2] at ht
        apply hidx
        simp only [List.getLast?_singleton]
        rw [(List.cons.inj ht).2]
      | cons a t2 =>
        rw [List.cons_append] at ht
        have h2 := (List.cons.inj ht).2
        apply he.2.1
        rw [← h2, e2]
        simp
    | cons e3 r =>
      have hp2 : IsRelPath (e3 :: r) :=
        ⟨by simp, fun x hx => hp.2 x (List.mem_cons_of_mem _ hx)⟩
      have hidx2 : (e3 :: r).getLast? ≠ some (bytes "index.html") := by
        intro h
        apply hidx
        rw [List.getLast?_cons_cons]
        exact h
      simp only [joinPath]
      intro ht
      have ht2 : t ++ bytes "/index.html" = (47 :: e) ++ (47 :: joinPath (e3 :: r)) := by
        rw [ht]
        simp
      rw [List.append_eq_append_iff] at ht2
      rcases ht2 with ⟨a, _, h2⟩ | ⟨c, _, h2⟩
      · cases a with
        | nil =>
          rw [List.nil_append] at h2
          exact ih hp2 hidx2 [] (by rw [List.nil_append]; exact h2)
        | cons x a2 =>
          rw [e2, List.cons_append] at h2
          apply hnoslash
          rw [(List.cons.inj h2).2]
          simp
      · exact ih hp2 hidx2 c h2.symm

theorem path_no_index_suffix (elems : List GoString) (hp : IsRelPath elems)
    (hidx : elems.getLast? ≠ some (bytes "index.html")) :
    HasSuffix (bytes "/" ++ joinPath elems) (bytes "/index.html") = false := by
  cases h : HasSuffix (bytes "/" ++ joinPath elems) (bytes "/index.html") with
  | false => rfl
  | true =>
    exfalso
    unfold HasSuffix at h
    rw [List.isSuffixOf_iff_suffix] at h
    obtain ⟨t, ht⟩ := h
    exact path_not_index elems hp hidx t ht

theorem Clean_slash_path (elems : List GoString) (hp : IsRelPath elems) :
    Clean (bytes "/" ++ joinPath elems) = bytes "/" ++ joinPath elems := by
  have e1 : bytes "/" ++ joinPath elems = 47 :: joinPath elems := rfl
  rw [e1]
  unfold Clean
  rw [if_neg (List.cons_ne_nil _ _)]
  simp only [List.head?_cons, decide_True, if_true, List.tail_cons]
  rw [cleanLoop_path elems hp _ (by simp) true [47] 1 (fun _ => by simp)]
  simp

theorem Clean_slash_slash_path (elems : List GoString) (hp : IsRelPath elems) :
    Clean (bytes "/" ++ (bytes "/" ++ joinPath elems)) = bytes "/" ++ joinPath elems := by
  have e1 : bytes "/" ++ (bytes "/" ++ joinPath elems) = 47 :: 47 :: joinPath elems := rfl
  have e2 : bytes "/" ++ joinPath elems = 47 :: joinPath elems := rfl
  have hm : (47 :: 47 :: joinPath elems).length = ((joinPath elems).length + 1) + 1 := by simp
  rw [e1, e2]
  unfold Clean
  rw [if_neg (List.cons_ne_nil _ _)]
  simp only [List.head?_cons, decide_True, if_true, List.tail_cons]
  rw [hm, cleanLoop_slash, cleanLoop_path elems hp _ (by omega) true [47] 1 (fun _ => by simp)]
  simp

theorem Clean_static_path (elems : List GoString) (hp : IsRelPath elems) :
    Clean (bytes "/static/" ++ joinPath elems) = bytes "/static/" ++ joinPath elems := by
  have e1 : bytes "/static/" ++ joinPath elems
      = 47 :: ([115, 116, 97, 116, 105, 99] ++ (47 :: joinPath elems)) := rfl
  have key : ∀ m, (joinPath elems).length ≤ m →
      cleanLoop (m + 2) ([115, 116, 97, 116, 105, 99] ++ (47 :: joinPath elems)) true [47] 1
      = 47 :: ([115, 116, 97, 116, 105, 99] ++ (47 :: joinPath elems)) := by
    intro m hmle
    rw [cleanLoop_elem (m + 1) [115, 116, 97, 116, 105, 99] (47 :: joinPath elems) true [47] 1
      (by simp) (by decide) (by decide) (by decide) (Or.inr rfl)]
    rw [cleanLoop_slash, cleanLoop_path elems hp m hmle true _ 1 (fun _ => by simp)]
    simp
  have hm : (47 :: ([115, 116, 97, 116, 105, 99] ++ (47 :: joinPath elems))).length
      = ((joinPath elems).length + 6) + 2 := by
    simp
  rw [e1]
  unfold Clean
  rw [if_neg (List.cons_ne_nil _ _)]
  simp only [List.head?_cons, decide_True, if_true, List.tail_cons]
  rw [hm, key _ (by omega)]
  simp

theorem Clean_root_path (elems : List GoString) (hp : IsRelPath elems) :
    Clean (bytes "web/static" ++ bytes "/" ++ joinPath elems)
      = bytes "web/static/" ++ joinPath elems := by
  have e1 : bytes "web/static" ++ bytes "/" ++ joinPath elems
      = [119, 101, 98] ++ (47 :: ([115, 116, 97, 116, 105, 99] ++ (47 :: joinPath elems))) := rfl
  have e2 : bytes "web/static/" ++ joinPath elems
      = 119 :: 101 :: 98 :: 47 :: 115 :: 116 :: 97 :: 116 :: 105 :: 99 :: 47 :: joinPath elems := rfl
  have key : ∀ m, (joinPath elems).length ≤ m → cleanLoop (m + 4)
      ([119, 101, 98] ++ (47 :: ([115, 116, 97, 116, 105, 99] ++ (47 :: joinPath elems)))) false [] 0
      = 119 :: 101 :: 98 :: 47 :: 115 :: 116 :: 97 :: 116 :: 105 :: 99 :: 47 :: joinPath elems := by
    intro m hmle
    rw [cleanLoop_elem (m + 3) [119, 101, 98]
      (47 :: ([115, 116, 97, 116, 105, 99] ++ (47 :: joinPath elems)))
      false [] 0 (by simp) (by decide) (by decide) (by decide) (Or.inr rfl)]
    rw [cleanLoop_slash]
    rw [cleanLoop_elem (m + 1) [115, 116, 97, 116, 105, 99] (47 :: joinPath elems) false _ 0
      (by simp) (by decide) (by decide) (by decide) (Or.inr rfl)]
    rw [cleanLoop_slash, cleanLoop_path elems hp m hmle false _ 0 (fun h => by simp at h)]
    simp
  have hne : [119, 101, 98] ++ (47 :: ([115, 116, 97, 116, 105, 99] ++ (47 :: joinPath elems)))
      ≠ [] := by simp
  have hhead : decide (([119, 101, 98] ++
      (47 :: ([115, 116, 97, 116, 105, 99] ++ (47 :: joinPath elems)))).head?
      = some (47 : Byte)) = false := by
    simp
  have hm : ([119, 101, 98] ++
      (47 :: ([115, 116, 97, 116, 105, 99] ++ (47 :: joinPath elems)))).length
      = ((joinPath elems).length + 7) + 4 := by
    simp
  rw [e1, e2]
  unfold Clean
  rw [if_neg hne]
  simp only [hhead, Bool.false_eq_true, if_false]
  rw [hm, key _ (by omega)]
  simp

theorem cleanPath_static_path (elems : List GoString) (hp : IsRelPath elems) :
    cleanPath (bytes "/static/" ++ joinPath elems) = bytes "/static/" ++ joinPath elems := by
  have e1 : bytes "/static/" ++ joinPath elems = 47 :: (bytes "static/" ++ joinPath elems) := rfl
  unfold cleanPath
  have hne : bytes "/static/" ++ joinPath elems ≠ [] := by rw [e1]; simp
  have hh : ¬ (bytes "/static/" ++ joinPath elems).head? ≠ some 47 := by rw [e1]; simp
  rw [if_neg hne]
  simp only [hh, if_false, Clean_static_path elems hp]
  have hl := getLast_path_ne_slash (bytes "/static/") elems hp
  split
  · rename_i h
    exact absurd h.1 hl
  · rfl

/-! ### Escaped file names -/

theorem IsFileName_escape (e : GoString) (he : IsFileName e) : IsFileName (escape e) := by
  obtain ⟨hne, hs, hz, hdot, hdd⟩ := he
  refine ⟨?_, ?_, ?_, ?_, ?_⟩
  · intro h
    have := escape_length_ge e
    rw [h] at this
    exact hne (List.length_eq_zero.mp (by simpa using this))
  · intro h
    obtain ⟨c, hc, hx⟩ := mem_escape e 47 h
    rcases mem_escapeByte c 47 hx with ⟨e1, _⟩ | e1 | ⟨e1, _⟩
    · exact hs (by rw [e1]; exact hc)
    · exact absurd e1 (by decide)
    · exact e1 rfl
  · intro h
    obtain ⟨c, hc, hx⟩ := mem_escape e 0 h
    rcases mem_escapeByte c 0 hx with ⟨e1, _⟩ | e1 | ⟨_, e1, _⟩
    · exact hz (by rw [e1]; exact hc)
    · exact absurd e1 (by decide)
    · exact e1 rfl
  · intro h
    exact hdot (escape_eq_of_no_percent e _ h (by decide))
  · intro h
    exact hdd (escape_eq_of_no_percent e _ h (by decide))

theorem IsRelPath_escape (elems : List GoString) (hp : IsRelPath elems) :
    IsRelPath (elems.map escape) := by
  refine ⟨?_, ?_⟩
  · intro h
    exact hp.1 (List.map_eq_nil_iff.mp h)
  · intro e he
    rw [List.mem_map] at he
    obtain ⟨a, ha, rfl⟩ := he
    exact IsFileName_escape a (hp.2 a ha)

theorem escape_joinPath (elems : List GoString) :
    escape (joinPath elems) = joinPath (elems.map escape) := by
  induction elems with
  | nil => rfl
  | cons e rest ih =>
    cases rest with
    | nil => rfl
    | cons e2 r =>
      simp only [joinPath, List.map_cons] at ih ⊢
      have e47 : (47 : Byte) :: joinPath (e2 :: r) = [47] ++ joinPath (e2 :: r) := rfl
      rw [e47, escape_append, escape_append, ih]
      rfl

theorem EscapedPath_static (r : Request) (elems : List GoString) (hraw : r.RawPath = [])
    (hpath : r.Path = bytes "/static/" ++ joinPath elems) :
    EscapedPath r = bytes "/static/" ++ joinPath (elems.map escape) := by
  unfold EscapedPath
  have h1 : ¬ (r.RawPath ≠ [] ∧ validEncoded r.RawPath = true ∧
      unescape r.RawPath = some r.Path) := fun h => h.1 hraw
  have h2 : r.Path ≠ bytes "*" := by
    rw [hpath]
    intro h
    have h3 : (47 : Byte) :: (bytes "static/" ++ joinPath elems) = [42] := h
    exact absurd (List.cons.inj h3).1 (by decide)
  rw [if_neg h1, if_neg h2, hpath, escape_append, escape_joinPath]
  rfl

theorem Handler_static_path (r : Request) (elems : List GoString) (hp : IsRelPath elems)
    (hraw : r.RawPath = []) (hpath : r.Path = bytes "/static/" ++ joinPath elems) :
    ServeMux.Handler mainMux r = Dispatch.handler Route.StaticFiles := by
  have he := EscapedPath_static r elems hraw hpath
  apply Handler_static_escaped r _ he
  rw [he]
  exact cleanPath_static_path _ (IsRelPath_escape elems hp)

/-! ### Opening the file -/

theorem validElements_joinPath (elems : List GoString) (hp : IsRelPath elems) (k : Nat)
    (hk : (joinPath elems).length < k) : validElements k (joinPath elems) = true := by
  induction elems generalizing k with
  | nil => exact absurd rfl hp.1
  | cons e rest ih =>
    have he : IsFileName e := hp.2 e (List.mem_cons_self _ _)
    obtain ⟨m, rfl⟩ : ∃ m, k = m + 1 := ⟨k - 1, by omega⟩
    have hchk : ¬ (e = [] ∨ e = bytes "." ∨ e = bytes "..") := by
      rintro (h | h | h)
      · exact he.1 h
      · exact he.2.2.2.1 h
      · exact he.2.2.2.2 h
    cases rest with
    | nil =>
      simp only [joinPath] at hk ⊢
      have ht := takeWhile_elem e [] he.2.1 (Or.inl rfl)
      rw [List.append_nil] at ht
      simp only [validElements, ht, if_neg hchk, if_true]
    | cons e2 r =>
      have hp2 : IsRelPath (e2 :: r) :=
        ⟨by simp, fun x hx => hp.2 x (List.mem_cons_of_mem _ hx)⟩
      simp only [joinPath, List.length_append, List.length_cons] at hk ⊢
      have ht := takeWhile_elem e (47 :: joinPath (e2 :: r)) he.2.1 (Or.inr rfl)
      have hlen : ¬ e.length = (e ++ 47 :: joinPath (e2 :: r)).length := by
        simp
      have hdrop : (e ++ 47 :: joinPath (e2 :: r)).drop (e.length + 1) = joinPath (e2 :: r) := by
        rw [List.drop_append_eq_append_drop]
        simp
      simp only [validElements, ht, if_neg hchk, if_neg hlen, hdrop]
      exact ih hp2 m (by omega)

theorem Localize_joinPath (elems : List GoString) (hp : IsRelPath elems)
    (hutf : ValidString (joinPath elems) = true) : Localize (joinPath elems) = true := by
  unfold Localize ValidPath
  have hz := joinPath_no_nul elems hp
  have hv := validElements_joinPath elems hp _ (Nat.lt_succ_self _)
  simp only [hutf, Bool.true_eq_false, if_false, hv, ite_self, Bool.true_and, decide_eq_true_eq]
  exact hz

theorem DirOpen_path (fs : FileSystem) (elems : List GoString) (hp : IsRelPath elems)
    (hutf : ValidString (joinPath elems) = true)
    (hnf : fs (bytes "web/static/" ++ joinPath elems) ≠ Node.failure) :
    DirOpen fs (bytes "web/static") (bytes "/" ++ joinPath elems)
      = fs (bytes "web/static/" ++ joinPath elems) := by
  unfold DirOpen
  rw [Clean_slash_slash_path elems hp]
  have e1 : (bytes "/" ++ joinPath elems).drop 1 = joinPath elems := rfl
  simp only [e1, if_neg (joinPath_ne_nil elems hp), Localize_joinPath elems hp hutf,
    Bool.true_eq_false, if_false, Clean_root_path elems hp]

theorem HasPrefix_static (x : GoString) :
    HasPrefix (bytes "/static/" ++ x) (bytes "/static/") = true := by
  unfold HasPrefix
  rw [List.isPrefixOf_iff_prefix]
  exact List.prefix_append _ _

theorem StripPrefix_static_path (r : Request) (f : GoString) (hraw : r.RawPath = [])
    (hpath : r.Path = bytes "/static/" ++ f) :
    StripPrefix (bytes "/static/") r = some { r with Path := f, RawPath := [] } := by
  have hpre : HasPrefix r.Path (bytes "/static/") = true := by
    rw [hpath]
    exact HasPrefix_static f
  rw [StripPrefix_static r hpre (Or.inl hraw), hpath, hraw]
  rfl

theorem staticFiles_path (fs : FileSystem) (r : Request) (elems : List GoString)
    (hp : IsRelPath elems) (hutf : ValidString (joinPath elems) = true)
    (hidx : elems.getLast? ≠ some (bytes "index.html")) (hraw : r.RawPath = [])
    (hpath : r.Path = bytes "/static/" ++ joinPath elems) (hcond : isConditional r = false) :
    (∀ data, fs (bytes "web/static/" ++ joinPath elems) = Node.file data →
      staticFiles fs r = FileResponse.content data) ∧
    (fs (bytes "web/static/" ++ joinPath elems) = Node.notExist →
      staticFiles fs r = FileResponse.error (bytes "404 page not found") 404) := by
  have hl := getLast_path_ne_slash (bytes "/") elems hp
  have hcond2 : isConditional { r with Path := bytes "/" ++ joinPath elems, RawPath := [] }
      = false := hcond
  constructor
  · intro data hfile
    have hopen := DirOpen_path fs elems hp hutf (by rw [hfile]; simp)
    unfold staticFiles
    rw [StripPrefix_static_path r _ hraw hpath]
    simp only [FileServer, path_not_rooted elems hp, Bool.false_eq_true, if_false,
      Clean_slash_path elems hp, serveFile, path_no_index_suffix elems hp hidx, hopen, hfile]
    split
    · rename_i h
      exact absurd h.2 hl
    · unfold serveContent
      rw [hcond2]
      rfl
  · intro hmiss
    have hopen := DirOpen_path fs elems hp hutf (by rw [hmiss]; simp)
    unfold staticFiles
    rw [StripPrefix_static_path r _ hraw hpath]
    simp only [FileServer, path_not_rooted elems hp, Bool.false_eq_true, if_false,
      Clean_slash_path elems hp, serveFile, path_no_index_suffix elems hp hidx, hopen, hmiss,
      toHTTPError]

/-- C10 fails as stated: `index.html` exists in `web/static`, yet `GET
/static/index.html` is not answered with status 200 and the bytes of the file:
the file server redirects every path ending in `/index.html` to `./`, with a
status other than 200 and an empty body. -/
theorem static_index_html_redirects :
    sampleFS (bytes "web/static/index.html") = Node.file (bytes "<html></html>") ∧
    ServeMux.Handler mainMux (GET (bytes "/static/index.html"))
      = Dispatch.handler Route.StaticFiles ∧
    staticFiles sampleFS (GET (bytes "/static/index.html")) = FileResponse.redirect (bytes "./") ∧
    (FileResponse.write ResponseWriter.new (GET (bytes "/static/index.html"))
        (staticFiles sampleFS (GET (bytes "/static/index.html")))).map
      (fun w => (decide ((ResponseWriter.finish w).status = 200), (ResponseWriter.finish w).body))
      = some (false, []) := by
  decide

/-- C10, amended: for every relative path `f` that is valid UTF-8 and made of
file names joined by slashes (each name non-empty, without `/` or NUL, not `.`
or `..`) whose last name is not `index.html`, every `GET` request for the path
`/static/f` that carries no raw path (the URL is written in its default
encoding) and none of the headers `If-Match`, `If-Unmodified-Since`,
`If-None-Match`, `If-Modified-Since` and `Range`, whatever its other headers
and its body, is dispatched to the static file handler, which answers with
status 200 and exactly the bytes of the file `f` of the directory `web/static`
when `f` is a regular file there, and with status 404 when `web/static/f` does
not exist. -/
theorem static_file_served (fs : FileSystem) (r : Request) (elems : List GoString)
    (hp : IsRelPath elems) (hutf : ValidString (joinPath elems) = true)
    (hidx : elems.getLast? ≠ some (bytes "index.html"))
    (hmethod : r.Method = bytes "GET") (hraw : r.RawPath = [])
    (hpath : r.Path = bytes "/static/" ++ joinPath elems) (hcond : isConditional r = false) :
    ServeMux.Handler mainMux r = Dispatch.handler Route.StaticFiles ∧
    (∀ data, fs (bytes "web/static/" ++ joinPath elems) = Node.file data →
      ∃ w, FileResponse.write ResponseWriter.new r (staticFiles fs r) = some w ∧
        (ResponseWriter.finish w).status = 200 ∧ (ResponseWriter.finish w).body = data) ∧
    (fs (bytes "web/static/" ++ joinPath elems) = Node.notExist →
      ∃ w, FileResponse.write ResponseWriter.new r (staticFiles fs r) = some w ∧
        (ResponseWriter.finish w).status = 404) := by
  obtain ⟨hfile, hmiss⟩ := staticFiles_path fs r elems hp hutf hidx hraw hpath hcond
  refine ⟨Handler_static_path r elems hp hraw hpath, ?_, ?_⟩
  · intro data hd
    rw [hfile data hd]
    have hne : ¬ r.Method = bytes "HEAD" := by
      rw [hmethod]
      decide
    refine ⟨_, rfl, ?_, ?_⟩
    · rw [if_neg hne]
      rfl
    · rw [if_neg hne]
      show ([] : GoString) ++ data = data
      rfl
  · intro hm
    rw [hmiss hm]
    exact ⟨_, rfl, rfl⟩

/-- Witness for C10: in a `web/static` holding `css/app.css` and no `my file.css`,
a `GET /static/css/app.css` that carries an `Accept` header is served, and a
`GET` for the path `/static/my file.css` is not found. -/
theorem static_file_served_witness :
    (∃ w, FileResponse.write ResponseWriter.new sampleRequest
          (staticFiles sampleFS sampleRequest) = some w ∧
      (ResponseWriter.finish w).status = 200 ∧
      (ResponseWriter.finish w).body = bytes "body \x7b\x7d") ∧
    (∃ w, FileResponse.write ResponseWriter.new (GET (bytes "/static/my file.css"))
          (staticFiles sampleFS (GET (bytes "/static/my file.css"))) = some w ∧
      (ResponseWriter.finish w).status = 404) :=
  ⟨(static_file_served sampleFS sampleRequest [bytes "css", bytes "app.css"] (by decide)
      (by decide) (by decide) (by decide) (by decide) (by decide) (by decide)).2.1
      (bytes "body \x7b\x7d") (by decide),
   (static_file_served sampleFS (GET (bytes "/static/my file.css")) [bytes "my file.css"]
      (by decide) (by decide) (by decide) (by decide) (by decide) (by decide) (by decide)).2.2
      (by decide)⟩

end MyApp
